import Mathlib

/-!
Verification of the memory decay & archival subsystem of the OpenMemory
backend (`app/utils/decay.py`, `app/utils/decay_with_archive_table.py`,
`app/tasks/decay_scheduler.py`).

The Python code is shallowly embedded:
* Python `datetime` objects become `PyDatetime` (wall-clock seconds plus an
  optional UTC offset; `none` models a naive datetime).  Subtraction of a
  naive and an aware datetime raises `TypeError` in Python, so `pySub`
  returns an `Option`.
* Python floats are idealised as real numbers for the pure scoring math and
  as rationals for the stored `decay_score` columns of the database model
  (every IEEE float is a rational, and the archival / statistics logic only
  compares stored numbers).
* The SQLAlchemy session is modelled as committed tables plus, where the
  code uses `rollback`, an explicit list of pending operations.
-/

namespace OpenMemory

/-- Clamp to `[0,1]`; embeds the Python idiom `max(0.0, min(1.0, x))`. -/
noncomputable def clamp01 (x : ℝ) : ℝ := max 0 (min 1 x)

theorem clamp01_nonneg (x : ℝ) : 0 ≤ clamp01 x := le_max_left 0 _

theorem clamp01_le_one (x : ℝ) : clamp01 x ≤ 1 :=
  max_le (by norm_num) (min_le_left 1 x)

theorem clamp01_mono {x y : ℝ} (h : x ≤ y) : clamp01 x ≤ clamp01 y :=
  max_le_max le_rfl (min_le_min le_rfl h)

theorem clamp01_of_mem {x : ℝ} (h0 : 0 ≤ x) (h1 : x ≤ 1) : clamp01 x = x := by
  unfold clamp01
  rw [min_eq_right h1, max_eq_right h0]

/-- Python `datetime`: a wall-clock reading in seconds together with an
optional UTC offset in seconds.  `tzOffset = none` models a naive
(timezone-less) datetime, `tzOffset = some o` an aware one. -/
structure PyDatetime where
  wall : Int
  tzOffset : Option Int
deriving DecidableEq, Repr

/-- An aware datetime with an explicit UTC timezone (`tzinfo=datetime.UTC`). -/
def mkUTC (w : Int) : PyDatetime := ⟨w, some 0⟩

/-- Python datetime subtraction, in seconds.  Subtracting a naive from an
aware datetime (or vice versa) raises `TypeError`, hence `none`. -/
def pySub (a b : PyDatetime) : Option Int :=
  match a.tzOffset, b.tzOffset with
  | some x, some y => some ((a.wall - x) - (b.wall - y))
  | none, none => some (a.wall - b.wall)
  | _, _ => none

/-- `timedelta.days`: whole-day truncation of a duration in seconds.
Python normalises a `timedelta` so that `.days` is the floor division of the
total duration by one day. -/
def timedeltaDays (secs : Int) : Int := Int.fdiv secs 86400

/-- The guard `if created_at.tzinfo is None: created_at =
created_at.replace(tzinfo=datetime.UTC)` from `decay.py`. -/
def ensureUTC (d : PyDatetime) : PyDatetime :=
  match d.tzOffset with
  | none => ⟨d.wall, some 0⟩
  | some _ => d

/-- `calculate_time_decay` (identical in `decay.py` and
`decay_with_archive_table.py`): `1.0` for `days <= 0`, otherwise
`0.5 ** (days / half_life)` clamped to `[0,1]`. -/
noncomputable def calculate_time_decay (days_since_last_access half_life_days : Int) : ℝ :=
  if days_since_last_access ≤ 0 then 1
  else clamp01 ((0.5 : ℝ) ^ ((days_since_last_access : ℝ) / (half_life_days : ℝ)))

/-- `calculate_access_boost`: `1.0` for `access_count <= 0`, otherwise
`1.0 + log(1 + access_count) * 0.2` capped at `max_boost` (the callers use
the default `max_boost = 2.0`). -/
noncomputable def calculate_access_boost (access_count : Int) (max_boost : ℝ) : ℝ :=
  if access_count ≤ 0 then 1
  else min (1 + Real.log (1 + (access_count : ℝ)) * 0.2) max_boost

/-- `calculate_decay_score` from `decay.py`: normalises naive timestamps to
UTC, derives whole days since the reference point (`last_accessed_at` if
present, else `created_at`), and clamps the product of the three factors.
`now` is `datetime.now(datetime.UTC)`, always aware, passed here as its
wall-clock reading `nowWall`.  The `Option` records that Python datetime
subtraction can raise `TypeError` on a naive/aware mix. -/
noncomputable def calculate_decay_score (created_at : PyDatetime)
    (last_accessed_at : Option PyDatetime) (access_count : Int)
    (importance_score : ℝ) (half_life_days : Int) (nowWall : Int) : Option ℝ :=
  let now := mkUTC nowWall
  let createdU := ensureUTC created_at
  let lastU := last_accessed_at.map ensureUTC
  let ref := match lastU with
    | some d => d
    | none => createdU
  match pySub now ref with
  | none => none
  | some diff =>
    let days_since_access := timedeltaDays diff
    let time_decay := calculate_time_decay days_since_access half_life_days
    let access_boost := calculate_access_boost access_count 2
    let importance_weight := 0.5 + importance_score * 0.5
    some (clamp01 (time_decay * access_boost * importance_weight))

/-- `calculate_decay_score` from `decay_with_archive_table.py`: same
computation but WITHOUT the naive-timestamp normalisation step. -/
noncomputable def calculate_decay_score_archive (created_at : PyDatetime)
    (last_accessed_at : Option PyDatetime) (access_count : Int)
    (importance_score : ℝ) (half_life_days : Int) (nowWall : Int) : Option ℝ :=
  let now := mkUTC nowWall
  let ref := match last_accessed_at with
    | some d => d
    | none => created_at
  match pySub now ref with
  | none => none
  | some diff =>
    let days_since_access := timedeltaDays diff
    let time_decay := calculate_time_decay days_since_access half_life_days
    let access_boost := calculate_access_boost access_count 2
    let importance_weight := 0.5 + importance_score * 0.5
    some (clamp01 (time_decay * access_boost * importance_weight))

/-- The UTC instant an aware datetime denotes (wall clock minus offset);
for a naive datetime this is the instant it denotes when read as UTC. -/
def PyDatetime.instant (d : PyDatetime) : Int := d.wall - d.tzOffset.getD 0

/-- Reference point for "days since access": `last_accessed_at if
last_accessed_at else created_at` (a Python datetime object is always
truthy, so the truthiness test is an `Option` match). -/
def refPoint (created_at : PyDatetime) (last_accessed_at : Option PyDatetime) : PyDatetime :=
  match last_accessed_at with
  | some d => d
  | none => created_at

theorem pySub_mkUTC_ensureUTC (n : Int) (d : PyDatetime) :
    pySub (mkUTC n) (ensureUTC d) = some (n - (ensureUTC d).instant) := by
  cases d with
  | mk w tz =>
    cases tz <;> simp [pySub, ensureUTC, mkUTC, PyDatetime.instant]

theorem ensureUTC_idem (d : PyDatetime) : ensureUTC (ensureUTC d) = ensureUTC d := by
  cases d with
  | mk w tz => cases tz <;> rfl

/-- Closed form of `decay.py`'s `calculate_decay_score`: after the
naive-to-UTC normalisation the subtraction always succeeds, and the result
is the clamped product of the three factors. -/
theorem calculate_decay_score_eq (created_at : PyDatetime)
    (last_accessed_at : Option PyDatetime) (access_count : Int)
    (importance_score : ℝ) (half_life_days : Int) (nowWall : Int) :
    calculate_decay_score created_at last_accessed_at access_count
        importance_score half_life_days nowWall
      = some (clamp01
          (calculate_time_decay
              (timedeltaDays
                (nowWall - (ensureUTC (refPoint created_at last_accessed_at)).instant))
              half_life_days
            * calculate_access_boost access_count 2
            * (0.5 + importance_score * 0.5))) := by
  cases last_accessed_at <;>
    simp [calculate_decay_score, refPoint, pySub_mkUTC_ensureUTC]

/-- C3: for every integer `days` and positive `half_life_days`,
`calculate_time_decay` returns `1.0` whenever `days <= 0`, otherwise returns
`0.5 ^ (days / half_life_days)` clamped to `[0,1]`; in particular
`calculate_time_decay half_life_days half_life_days = 0.5`, and the function
is monotonically non-increasing in `days` for a fixed half-life. -/
theorem C3_time_decay_spec (half_life_days : Int) (hpos : 0 < half_life_days) :
    (∀ days : Int, days ≤ 0 → calculate_time_decay days half_life_days = 1) ∧
    (∀ days : Int, 0 < days →
      calculate_time_decay days half_life_days
        = clamp01 ((0.5 : ℝ) ^ ((days : ℝ) / (half_life_days : ℝ)))) ∧
    calculate_time_decay half_life_days half_life_days = 0.5 ∧
    (∀ d1 d2 : Int, d1 ≤ d2 →
      calculate_time_decay d2 half_life_days ≤ calculate_time_decay d1 half_life_days) := by
  refine ⟨?_, ?_, ?_, ?_⟩
  · intro days hd
    simp [calculate_time_decay, hd]
  · intro days hd
    simp [calculate_time_decay, not_le.mpr hd]
  · have hne : (half_life_days : ℝ) ≠ 0 := Int.cast_ne_zero.mpr hpos.ne'
    rw [calculate_time_decay, if_neg (not_le.mpr hpos), div_self hne, Real.rpow_one]
    rw [clamp01_of_mem] <;> norm_num
  · intro d1 d2 h12
    unfold calculate_time_decay
    by_cases h2 : d2 ≤ 0
    · rw [if_pos (le_trans h12 h2), if_pos h2]
    · rw [if_neg h2]
      by_cases h1 : d1 ≤ 0
      · rw [if_pos h1]
        exact clamp01_le_one _
      · rw [if_neg h1]
        apply clamp01_mono
        apply Real.rpow_le_rpow_of_exponent_ge (by norm_num) (by norm_num)
        have hposR : (0 : ℝ) < (half_life_days : ℝ) := by exact_mod_cast hpos
        exact div_le_div_of_nonneg_right (by exact_mod_cast h12) hposR.le

/-- Witness for C3 at `half_life_days = 30`. -/
theorem C3_time_decay_spec_witness :
    0 < (30 : Int) ∧ calculate_time_decay 30 30 = 0.5 :=
  ⟨by norm_num, (C3_time_decay_spec 30 (by norm_num)).2.2.1⟩

/-- Closed form of the archive-table `calculate_decay_score` when the
reference timestamp is aware: the subtraction succeeds and the result is
the clamped product of the three factors. -/
theorem calculate_decay_score_archive_eq (created_at : PyDatetime)
    (last_accessed_at : Option PyDatetime) (access_count : Int)
    (importance_score : ℝ) (half_life_days : Int) (nowWall : Int) (o : Int)
    (h : (refPoint created_at last_accessed_at).tzOffset = some o) :
    calculate_decay_score_archive created_at last_accessed_at access_count
        importance_score half_life_days nowWall
      = some (clamp01
          (calculate_time_decay
              (timedeltaDays
                (nowWall - (refPoint created_at last_accessed_at).instant))
              half_life_days
            * calculate_access_boost access_count 2
            * (0.5 + importance_score * 0.5))) := by
  cases last_accessed_at with
  | none =>
    simp only [refPoint] at h ⊢
    rcases created_at with ⟨w, tz⟩
    obtain rfl : tz = some o := h
    simp [calculate_decay_score_archive, pySub, mkUTC, PyDatetime.instant,
      sub_sub_cancel]
  | some l =>
    simp only [refPoint] at h ⊢
    rcases l with ⟨w, tz⟩
    obtain rfl : tz = some o := h
    simp [calculate_decay_score_archive, pySub, mkUTC, PyDatetime.instant,
      sub_sub_cancel]

/-- C4 counterexample: the claim is false as stated for the archive-table
variant.  At the valid input `created_at = naive 5s`, no last access,
`access_count = 2`, `importance_score = 0.75`, `half_life_days = 30`, its
`calculate_decay_score` raises `TypeError` (aware `now` minus naive
timestamp, modelled as `none`): there is no output at all, so in
particular no output equal to the clamped product and lying in `[0,1]`. -/
theorem C4_counterexample :
    calculate_decay_score_archive ⟨5, none⟩ none 2 0.75 30 100000 = none ∧
    ¬∃ score : ℝ,
      calculate_decay_score_archive ⟨5, none⟩ none 2 0.75 30 100000
          = some score ∧
        0 ≤ score ∧ score ≤ 1 := by
  refine ⟨rfl, ?_⟩
  rintro ⟨score, hs, -, -⟩
  rw [show calculate_decay_score_archive ⟨5, none⟩ none 2 0.75 30 100000
      = none from rfl] at hs
  exact Option.noConfusion hs

/-- C4 (amended): for all valid inputs (any `created_at`, any optional
`last_accessed_at`, `access_count >= 0`, `importance_score` in `[0,1]`,
positive `half_life_days`), `decay.py`'s composite score equals
`time_decay * access_boost * importance_weight` clamped to `[0,1]` and
always lies within `[0,1]`; the archive-table variant satisfies the same
property whenever its reference timestamp (`last_accessed_at` if present,
else `created_at`) is timezone-aware, but on a naive reference timestamp
it raises instead of producing a score. -/
theorem C4_composite_score_range (created_at : PyDatetime)
    (last_accessed_at : Option PyDatetime) (access_count : Int)
    (importance_score : ℝ) (half_life_days : Int) (nowWall : Int)
    (hcount : 0 ≤ access_count) (himp0 : 0 ≤ importance_score)
    (himp1 : importance_score ≤ 1) (hhalf : 0 < half_life_days) :
    (∃ score : ℝ,
      calculate_decay_score created_at last_accessed_at access_count
          importance_score half_life_days nowWall = some score ∧
      score = clamp01
        (calculate_time_decay
            (timedeltaDays
              (nowWall - (ensureUTC (refPoint created_at last_accessed_at)).instant))
            half_life_days
          * calculate_access_boost access_count 2
          * (0.5 + importance_score * 0.5)) ∧
      0 ≤ score ∧ score ≤ 1) ∧
    (∀ o : Int, (refPoint created_at last_accessed_at).tzOffset = some o →
      ∃ score : ℝ,
        calculate_decay_score_archive created_at last_accessed_at access_count
            importance_score half_life_days nowWall = some score ∧
        score = clamp01
          (calculate_time_decay
              (timedeltaDays
                (nowWall - (refPoint created_at last_accessed_at).instant))
              half_life_days
            * calculate_access_boost access_count 2
            * (0.5 + importance_score * 0.5)) ∧
        0 ≤ score ∧ score ≤ 1) :=
  ⟨⟨_, calculate_decay_score_eq created_at last_accessed_at access_count
        importance_score half_life_days nowWall,
    rfl, clamp01_nonneg _, clamp01_le_one _⟩,
   fun o ho =>
    ⟨_, calculate_decay_score_archive_eq created_at last_accessed_at
          access_count importance_score half_life_days nowWall o ho,
      rfl, clamp01_nonneg _, clamp01_le_one _⟩⟩

/-- Witness for C4: a memory created 60 days before `now` (aware UTC
timestamp), never accessed, with importance `0.5` and half-life 30 days,
through both variants. -/
theorem C4_composite_score_range_witness :
    0 ≤ (0 : Int) ∧ 0 ≤ (0.5 : ℝ) ∧ (0.5 : ℝ) ≤ 1 ∧ 0 < (30 : Int) ∧
    (refPoint (mkUTC 0) none).tzOffset = some 0 ∧
    (∃ score : ℝ,
      calculate_decay_score (mkUTC 0) none 0 0.5 30 (60 * 86400) = some score ∧
      score = clamp01
        (calculate_time_decay
            (timedeltaDays (60 * 86400 - (ensureUTC (refPoint (mkUTC 0) none)).instant)) 30
          * calculate_access_boost 0 2 * (0.5 + 0.5 * 0.5)) ∧
      0 ≤ score ∧ score ≤ 1) ∧
    (∃ score : ℝ,
      calculate_decay_score_archive (mkUTC 0) none 0 0.5 30 (60 * 86400)
          = some score ∧
      score = clamp01
        (calculate_time_decay
            (timedeltaDays (60 * 86400 - (refPoint (mkUTC 0) none).instant)) 30
          * calculate_access_boost 0 2 * (0.5 + 0.5 * 0.5)) ∧
      0 ≤ score ∧ score ≤ 1) :=
  ⟨by norm_num, by norm_num, by norm_num, by norm_num, rfl,
    (C4_composite_score_range (mkUTC 0) none 0 0.5 30 (60 * 86400)
      (by norm_num) (by norm_num) (by norm_num) (by norm_num)).1,
    (C4_composite_score_range (mkUTC 0) none 0 0.5 30 (60 * 86400)
      (by norm_num) (by norm_num) (by norm_num) (by norm_num)).2 0 rfl⟩

/-- C5 counterexample: the claim is false as stated for the archive-table
variant.  `decay_with_archive_table.py`'s `calculate_decay_score` performs
no naive-to-UTC normalisation, so on a naive `created_at` the subtraction
`now - created_at` mixes an aware and a naive datetime and raises
`TypeError` (modelled as `none`): the computation fails rather than
treating the timestamp as UTC. -/
theorem C5_counterexample :
    calculate_decay_score_archive ⟨0, none⟩ none 0 0.5 30 86400 = none := by
  rfl

/-- C5 (amended): `decay.py`'s `calculate_decay_score` treats naive
timestamps as UTC before the subtraction, so it never fails and returns the
same result as if its timestamps carried an explicit UTC timezone; the
archive-table variant performs no such normalisation and fails whenever the
reference timestamp is naive. -/
theorem C5_naive_timestamps_as_utc (created_at : PyDatetime)
    (last_accessed_at : Option PyDatetime) (access_count : Int)
    (importance_score : ℝ) (half_life_days : Int) (nowWall : Int) :
    (∃ score : ℝ,
      calculate_decay_score created_at last_accessed_at access_count
          importance_score half_life_days nowWall = some score) ∧
    calculate_decay_score created_at last_accessed_at access_count
        importance_score half_life_days nowWall
      = calculate_decay_score (ensureUTC created_at)
          (last_accessed_at.map ensureUTC) access_count
          importance_score half_life_days nowWall ∧
    ((refPoint created_at last_accessed_at).tzOffset = none →
      calculate_decay_score_archive created_at last_accessed_at access_count
          importance_score half_life_days nowWall = none) := by
  refine ⟨⟨_, calculate_decay_score_eq _ _ _ _ _ _⟩, ?_, ?_⟩
  · rw [calculate_decay_score_eq, calculate_decay_score_eq]
    cases last_accessed_at <;> simp [refPoint, ensureUTC_idem]
  · intro hnaive
    unfold calculate_decay_score_archive
    cases last_accessed_at with
    | none =>
      simp only [refPoint] at hnaive
      simp [pySub, mkUTC, hnaive]
    | some l =>
      simp only [refPoint] at hnaive
      simp [pySub, mkUTC, hnaive]

/-- Witness for C5 at a concrete naive timestamp. -/
theorem C5_naive_timestamps_as_utc_witness :
    (refPoint ⟨0, none⟩ none).tzOffset = none ∧
    ((∃ score : ℝ, calculate_decay_score ⟨0, none⟩ none 3 0.5 30 86400 = some score) ∧
      calculate_decay_score ⟨0, none⟩ none 3 0.5 30 86400
        = calculate_decay_score (ensureUTC ⟨0, none⟩) (Option.map ensureUTC none) 3 0.5 30 86400 ∧
      ((refPoint ⟨0, none⟩ none).tzOffset = none →
        calculate_decay_score_archive ⟨0, none⟩ none 3 0.5 30 86400 = none)) :=
  ⟨rfl, C5_naive_timestamps_as_utc ⟨0, none⟩ none 3 0.5 30 86400⟩

/-! ## Data model (`app/models.py`) -/

/-- Memory lifecycle states (`MemoryState`). -/
inductive MemoryState where
  | active
  | paused
  | archived
  | deleted
deriving DecidableEq

/-- Row of the `memories` table.  `α` is the numeric type standing for the
float columns (`decay_score`, `importance_score`).  The many-to-many
`categories` relationship is modelled as the list of category names
associated with the memory. -/
structure Mem (α : Type) where
  id : String
  user_id : String
  app_id : String
  content : String
  vector : String
  metadata_ : String
  state : MemoryState
  created_at : PyDatetime
  updated_at : PyDatetime
  archived_at : Option PyDatetime
  deleted_at : Option PyDatetime
  decay_score : α
  last_accessed_at : Option PyDatetime
  access_count : Int
  importance_score : α
  categories : List String
deriving DecidableEq

/-- Row of the `archived_memories` table. -/
structure ArchivedMem (α : Type) where
  id : String
  user_id : String
  app_id : String
  content : String
  vector : String
  metadata_ : String
  created_at : PyDatetime
  updated_at : PyDatetime
  archived_at : PyDatetime
  archived_from_state : MemoryState
  decay_score_at_archive : α
  last_accessed_at : Option PyDatetime
  access_count : Int
  importance_score : α
  categories_snapshot : List String
deriving DecidableEq

/-- Row of the append-only `memory_status_history` table. -/
structure MemoryStatusHistoryEntry where
  memory_id : String
  changed_by : String
  old_state : MemoryState
  new_state : MemoryState
deriving DecidableEq

/-- Row of the `memory_access_logs` table (consumed read-only). -/
structure MemoryAccessLogEntry where
  memory_id : String
  app_id : String
  accessed_at : PyDatetime
  access_type : String
deriving DecidableEq

/-- Database state for the same-table design of `decay.py`: archived
memories stay in `memories` with `state = archived`. -/
structure SameTableDB (α : Type) where
  memories : List (Mem α)
  access_logs : List MemoryAccessLogEntry
  history : List MemoryStatusHistoryEntry
deriving DecidableEq

/-- Database state for the separate-archive-table design of
`decay_with_archive_table.py`.  `categories` holds the names of the
existing `Category` rows (owned by the categorization collaborator). -/
structure ArchiveTableDB (α : Type) where
  memories : List (Mem α)
  archived : List (ArchivedMem α)
  access_logs : List MemoryAccessLogEntry
  history : List MemoryStatusHistoryEntry
  categories : List String
deriving DecidableEq

/-- Optional `user_id` filter appended to a memory query. -/
def userMatch {α : Type} (user_id : Option String) (m : Mem α) : Bool :=
  match user_id with
  | some u => decide (m.user_id = u)
  | none => true

/-- `db.query(Memory).filter(Memory.state == MemoryState.active)` plus the
optional owner filter. -/
def activeMemories {α : Type} (memories : List (Mem α)) (user_id : Option String) :
    List (Mem α) :=
  memories.filter (fun m => decide (m.state = MemoryState.active) && userMatch user_id m)

/-- The archive-candidate query shared by both variants:
`state == active AND decay_score < threshold`, plus the owner filter. -/
def archiveSelect {α : Type} [LinearOrder α] (memories : List (Mem α)) (threshold : α)
    (user_id : Option String) : List (Mem α) :=
  memories.filter (fun m =>
    decide (m.state = MemoryState.active) && decide (m.decay_score < threshold) &&
    userMatch user_id m)

/-! ## Same-table variant (`app/utils/decay.py`) -/

/-- `auto_archive_decayed_memories` from `decay.py`: select at most
`batch_size` active memories with `decay_score < threshold`, flip each to
`state = archived` with `archived_at = now`, append one status-history row
per memory, commit once at the end.  Field assignment and object creation
cannot raise here, so the logged-and-continue `except` branch of the loop
is unreachable in this pure model. -/
def auto_archive_decayed_memories {α : Type} [LinearOrder α] (db : SameTableDB α)
    (threshold : α) (batch_size : Nat) (user_id : Option String) (nowWall : Int) :
    SameTableDB α × Nat :=
  let sel := (archiveSelect db.memories threshold user_id).take batch_size
  if sel.isEmpty then (db, 0)
  else
    ({ db with
        memories := db.memories.map (fun m =>
          if m ∈ sel then
            { m with state := MemoryState.archived, archived_at := some (mkUTC nowWall) }
          else m),
        history := db.history ++ sel.map (fun m =>
          { memory_id := m.id, changed_by := m.user_id,
            old_state := m.state, new_state := MemoryState.archived }) },
      sel.length)

/-- The in-place mutation `decay.py`'s restore applies to the found row:
`state = active`, `decay_score = 1.0`, `archived_at = None` — and nothing
else (in particular `access_count` and `last_accessed_at` are untouched). -/
def sameTableRestoredRow {α : Type} [One α] (m : Mem α) : Mem α :=
  { m with state := MemoryState.active, decay_score := 1, archived_at := none }

/-- `restore_archived_memory` from `decay.py`: look up the memory scoped to
`(id, user_id, state = archived)`; if absent return `False` with no state
change, otherwise set `state = active`, `decay_score = 1.0`,
`archived_at = None` on that row, append a history entry and commit. -/
def restore_archived_memory {α : Type} [LinearOrderedField α] (db : SameTableDB α)
    (memory_id : String) (user_id : String) : SameTableDB α × Bool :=
  match db.memories.find? (fun m =>
      decide (m.id = memory_id) && decide (m.user_id = user_id) &&
      decide (m.state = MemoryState.archived)) with
  | none => (db, false)
  | some m =>
    ({ db with
        memories := db.memories.map (fun x =>
          if x = m then sameTableRestoredRow m else x),
        history := db.history ++
          [{ memory_id := m.id, changed_by := user_id,
             old_state := m.state, new_state := MemoryState.active }] },
      true)

/-- Result shape of `get_decay_statistics` in `decay.py`. -/
structure DecayStatistics (α : Type) where
  total_memories : Nat
  average_decay_score : α
  high_decay_count : Nat
  medium_decay_count : Nat
  low_decay_count : Nat
deriving DecidableEq

/-- Python `round(x, 3)`.  Ties and float representation are idealised as
rounding `x * 1000` to the nearest integer; no claim depends on the tie
direction. -/
def pyRound3 {α : Type} [LinearOrderedField α] [FloorRing α] (x : α) : α :=
  (round (x * 1000) : ℤ) / 1000

/-- `get_decay_statistics` from `decay.py`: over active memories (optional
owner filter), bucket counts at the fixed breakpoints `0.7` and `0.3`; on
an empty active set, zeros with `average_decay_score = 0.0`. -/
def get_decay_statistics {α : Type} [LinearOrderedField α] [FloorRing α]
    (db : SameTableDB α) (user_id : Option String) : DecayStatistics α :=
  let memories := activeMemories db.memories user_id
  if memories.isEmpty then
    { total_memories := 0, average_decay_score := 0,
      high_decay_count := 0, medium_decay_count := 0, low_decay_count := 0 }
  else
    let decay_scores := memories.map (fun m => m.decay_score)
    { total_memories := memories.length,
      average_decay_score := pyRound3 (decay_scores.sum / (decay_scores.length : α)),
      high_decay_count := decay_scores.countP (fun s => decide ((7 : α) / 10 ≤ s)),
      medium_decay_count := decay_scores.countP (fun s =>
        decide ((3 : α) / 10 ≤ s) && decide (s < (7 : α) / 10)),
      low_decay_count := decay_scores.countP (fun s => decide (s < (3 : α) / 10)) }

/-! ## Archive-table variant (`app/utils/decay_with_archive_table.py`)

The batch loop of this variant calls `db.rollback()` on a per-record
failure, so the session is modelled explicitly: committed tables plus a
list of pending operations that a commit applies and a rollback discards. -/

/-- A pending (uncommitted) session operation. -/
inductive SessionOp (α : Type) where
  | addArchived (r : ArchivedMem α)
  | addHistory (h : MemoryStatusHistoryEntry)
  | deleteMemory (id : String)
  | addMemory (r : Mem α)
  | deleteArchived (id : String)
deriving DecidableEq

/-- Effect of one committed session operation on the tables. -/
def applySessionOp {α : Type} [DecidableEq α] (db : ArchiveTableDB α) :
    SessionOp α → ArchiveTableDB α
  | .addArchived r => { db with archived := db.archived ++ [r] }
  | .addHistory h => { db with history := db.history ++ [h] }
  | .deleteMemory i => { db with memories := db.memories.filter (fun m => decide (m.id ≠ i)) }
  | .addMemory r => { db with memories := db.memories ++ [r] }
  | .deleteArchived i => { db with archived := db.archived.filter (fun a => decide (a.id ≠ i)) }

/-- `db.commit()`: apply a list of pending operations in order. -/
def commitOps {α : Type} [DecidableEq α] (db : ArchiveTableDB α)
    (pending : List (SessionOp α)) : ArchiveTableDB α :=
  pending.foldl applySessionOp db

/-- The archive record `move_memory_to_archive` builds from a memory
(same id, all content fields, `archived_at = now`, decay snapshot,
`categories_snapshot` = current category names). -/
def archiveSnapshot {α : Type} (nowWall : Int) (m : Mem α) : ArchivedMem α :=
  { id := m.id, user_id := m.user_id, app_id := m.app_id, content := m.content,
    vector := m.vector, metadata_ := m.metadata_, created_at := m.created_at,
    updated_at := m.updated_at, archived_at := mkUTC nowWall,
    archived_from_state := m.state, decay_score_at_archive := m.decay_score,
    last_accessed_at := m.last_accessed_at, access_count := m.access_count,
    importance_score := m.importance_score, categories_snapshot := m.categories }

/-- The session operations `move_memory_to_archive` adds: insert the
archive record, insert the status-history row, delete the active row. -/
def moveMemoryOps {α : Type} (nowWall : Int) (m : Mem α) : List (SessionOp α) :=
  [.addArchived (archiveSnapshot nowWall m),
   .addHistory { memory_id := m.id, changed_by := m.user_id,
                 old_state := m.state, new_state := MemoryState.archived },
   .deleteMemory m.id]

/-- `move_memory_to_archive` as a committed state transition (the function
itself only stages the operations; its caller commits). -/
def move_memory_to_archive {α : Type} [DecidableEq α] (db : ArchiveTableDB α)
    (m : Mem α) (nowWall : Int) : ArchiveTableDB α :=
  commitOps db (moveMemoryOps nowWall m)

/-- `auto_archive_decayed_memories` from `decay_with_archive_table.py`:
select at most `batch_size` candidates, then for each one either stage its
three move operations and count it, or — when moving it raises, modelled by
membership in `failing` — log, call `db.rollback()` (discarding ALL pending
operations, including those of previously processed records) and continue.
A single `db.commit()` at the end applies whatever is still pending. -/
def auto_archive_decayed_memories_archive {α : Type} [LinearOrder α]
    (db : ArchiveTableDB α) (threshold : α) (batch_size : Nat)
    (user_id : Option String) (failing : List String) (nowWall : Int) :
    ArchiveTableDB α × Nat :=
  let sel := (archiveSelect db.memories threshold user_id).take batch_size
  if sel.isEmpty then (db, 0)
  else
    let step := fun (acc : List (SessionOp α) × Nat) (m : Mem α) =>
      if m.id ∈ failing then ([], acc.2)
      else (acc.1 ++ moveMemoryOps nowWall m, acc.2 + 1)
    let r := sel.foldl step ([], 0)
    (commitOps db r.1, r.2)

/-- The fresh active row the archive-table restore creates from an archive
record: same identity and content, original `created_at`, `updated_at =
now`, `decay_score = 1.0`, `access_count = 0`, `last_accessed_at = None`,
`importance_score` carried over, and one category per snapshotted name
that still exists in `existing_categories`. -/
def archiveRestoredRow {α : Type} [One α] (existing_categories : List String)
    (a : ArchivedMem α) (nowWall : Int) : Mem α :=
  { id := a.id, user_id := a.user_id, app_id := a.app_id, content := a.content,
    vector := a.vector, metadata_ := a.metadata_, state := MemoryState.active,
    created_at := a.created_at, updated_at := mkUTC nowWall,
    archived_at := none, deleted_at := none,
    decay_score := 1, last_accessed_at := none, access_count := 0,
    importance_score := a.importance_score,
    categories := a.categories_snapshot.filter
      (fun n => decide (n ∈ existing_categories)) }

/-- `restore_archived_memory` from `decay_with_archive_table.py`: look up
the archive record scoped to `(id, user_id)`; if absent return `False` with
no change; otherwise create a fresh active memory with the same identity,
original `created_at`, `updated_at = now`, `decay_score = 1.0`,
`access_count = 0`, `last_accessed_at = None`, `importance_score` carried
over, categories re-attached for each snapshotted name that still exists;
append a history row, delete the archive record, commit. -/
def restore_archived_memory_archive {α : Type} [LinearOrderedField α]
    (db : ArchiveTableDB α) (memory_id : String) (user_id : String)
    (nowWall : Int) : ArchiveTableDB α × Bool :=
  match db.archived.find? (fun a =>
      decide (a.id = memory_id) && decide (a.user_id = user_id)) with
  | none => (db, false)
  | some a =>
    ({ db with
        memories := db.memories ++ [archiveRestoredRow db.categories a nowWall],
        history := db.history ++
          [{ memory_id := memory_id, changed_by := user_id,
             old_state := MemoryState.archived, new_state := MemoryState.active }],
        archived := db.archived.filter (fun x => decide (x.id ≠ a.id)) },
      true)

/-- Result shape of `get_decay_statistics` in
`decay_with_archive_table.py` (adds the archive-table count). -/
structure DecayStatisticsArchive (α : Type) where
  total_active_memories : Nat
  total_archived_memories : Nat
  average_decay_score : α
  high_decay_count : Nat
  medium_decay_count : Nat
  low_decay_count : Nat
deriving DecidableEq

/-- `get_decay_statistics` from `decay_with_archive_table.py`. -/
def get_decay_statistics_archive {α : Type} [LinearOrderedField α] [FloorRing α]
    (db : ArchiveTableDB α) (user_id : Option String) : DecayStatisticsArchive α :=
  let active := activeMemories db.memories user_id
  let archived_query : List (ArchivedMem α) :=
    match user_id with
    | some u => db.archived.filter (fun a => decide (a.user_id = u))
    | none => db.archived
  let archived_count := archived_query.length
  if active.isEmpty then
    { total_active_memories := 0, total_archived_memories := archived_count,
      average_decay_score := 0,
      high_decay_count := 0, medium_decay_count := 0, low_decay_count := 0 }
  else
    let decay_scores := active.map (fun m => m.decay_score)
    { total_active_memories := active.length,
      total_archived_memories := archived_count,
      average_decay_score := pyRound3 (decay_scores.sum / (decay_scores.length : α)),
      high_decay_count := decay_scores.countP (fun s => decide ((7 : α) / 10 ≤ s)),
      medium_decay_count := decay_scores.countP (fun s =>
        decide ((3 : α) / 10 ≤ s) && decide (s < (7 : α) / 10)),
      low_decay_count := decay_scores.countP (fun s => decide (s < (3 : α) / 10)) }

/-! ## C7: restore scoped to a wrong owner -/

/-- C7: when no archived memory with the given id exists under the given
owner (in particular when it exists under a different owner), both restore
implementations return `false` rather than raising and leave the whole
database state — active memories, archive store and status history —
unchanged. -/
theorem C7_restore_wrong_owner_no_change (db : SameTableDB ℚ)
    (dbA : ArchiveTableDB ℚ) (memory_id user_id : String) (nowWall : Int)
    (h1 : ∀ m ∈ db.memories,
      ¬(m.id = memory_id ∧ m.user_id = user_id ∧ m.state = MemoryState.archived))
    (h2 : ∀ a ∈ dbA.archived, ¬(a.id = memory_id ∧ a.user_id = user_id)) :
    restore_archived_memory db memory_id user_id = (db, false) ∧
    restore_archived_memory_archive dbA memory_id user_id nowWall = (dbA, false) := by
  constructor
  · have hfind : db.memories.find? (fun m =>
        decide (m.id = memory_id) && decide (m.user_id = user_id) &&
        decide (m.state = MemoryState.archived)) = none := by
      rw [List.find?_eq_none]
      intro m hm
      simp only [Bool.and_eq_true, decide_eq_true_eq]
      intro h
      exact h1 m hm ⟨h.1.1, h.1.2, h.2⟩
    simp [restore_archived_memory, hfind]
  · have hfind : dbA.archived.find? (fun a =>
        decide (a.id = memory_id) && decide (a.user_id = user_id)) = none := by
      rw [List.find?_eq_none]
      intro a ha
      simp only [Bool.and_eq_true, decide_eq_true_eq]
      intro h
      exact h2 a ha h
    simp [restore_archived_memory_archive, hfind]

/-- Witness for C7: one memory archived under owner `"u1"`, restored under
owner `"u2"`. -/
theorem C7_restore_wrong_owner_no_change_witness :
    (∀ m ∈ (SameTableDB.mk
        [{ id := "m1", user_id := "u1", app_id := "a1", content := "c",
           vector := "", metadata_ := "", state := MemoryState.archived,
           created_at := ⟨0, some 0⟩, updated_at := ⟨0, some 0⟩,
           archived_at := some ⟨5, some 0⟩, deleted_at := none,
           decay_score := (1 : ℚ) / 20, last_accessed_at := none,
           access_count := 3, importance_score := 1 / 2, categories := [] }] [] []).memories,
      ¬(m.id = "m1" ∧ m.user_id = "u2" ∧ m.state = MemoryState.archived)) ∧
    (∀ a ∈ (ArchiveTableDB.mk []
        [{ id := "m1", user_id := "u1", app_id := "a1", content := "c",
           vector := "", metadata_ := "", created_at := ⟨0, some 0⟩,
           updated_at := ⟨0, some 0⟩, archived_at := ⟨5, some 0⟩,
           archived_from_state := MemoryState.active,
           decay_score_at_archive := (1 : ℚ) / 20, last_accessed_at := none,
           access_count := 3, importance_score := 1 / 2,
           categories_snapshot := [] }] [] [] []).archived,
      ¬(a.id = "m1" ∧ a.user_id = "u2")) ∧
    restore_archived_memory (SameTableDB.mk
        [{ id := "m1", user_id := "u1", app_id := "a1", content := "c",
           vector := "", metadata_ := "", state := MemoryState.archived,
           created_at := ⟨0, some 0⟩, updated_at := ⟨0, some 0⟩,
           archived_at := some ⟨5, some 0⟩, deleted_at := none,
           decay_score := (1 : ℚ) / 20, last_accessed_at := none,
           access_count := 3, importance_score := 1 / 2, categories := [] }] [] [])
        "m1" "u2"
      = (SameTableDB.mk
        [{ id := "m1", user_id := "u1", app_id := "a1", content := "c",
           vector := "", metadata_ := "", state := MemoryState.archived,
           created_at := ⟨0, some 0⟩, updated_at := ⟨0, some 0⟩,
           archived_at := some ⟨5, some 0⟩, deleted_at := none,
           decay_score := (1 : ℚ) / 20, last_accessed_at := none,
           access_count := 3, importance_score := 1 / 2, categories := [] }] [] [], false) ∧
    restore_archived_memory_archive (ArchiveTableDB.mk []
        [{ id := "m1", user_id := "u1", app_id := "a1", content := "c",
           vector := "", metadata_ := "", created_at := ⟨0, some 0⟩,
           updated_at := ⟨0, some 0⟩, archived_at := ⟨5, some 0⟩,
           archived_from_state := MemoryState.active,
           decay_score_at_archive := (1 : ℚ) / 20, last_accessed_at := none,
           access_count := 3, importance_score := 1 / 2,
           categories_snapshot := [] }] [] [] [])
        "m1" "u2" 0
      = (ArchiveTableDB.mk []
        [{ id := "m1", user_id := "u1", app_id := "a1", content := "c",
           vector := "", metadata_ := "", created_at := ⟨0, some 0⟩,
           updated_at := ⟨0, some 0⟩, archived_at := ⟨5, some 0⟩,
           archived_from_state := MemoryState.active,
           decay_score_at_archive := (1 : ℚ) / 20, last_accessed_at := none,
           access_count := 3, importance_score := 1 / 2,
           categories_snapshot := [] }] [] [] [], false) := by
  refine ⟨by decide, by decide, ?_⟩
  exact C7_restore_wrong_owner_no_change _ _ "m1" "u2" 0 (by decide) (by decide)

/-! ## C10: statistics partition -/

/-- Each score falls in exactly one of the three buckets
(`>= 0.7`, `0.3 <= s < 0.7`, `< 0.3`), so the counts add up to the length. -/
theorem bucket_partition {α : Type} [LinearOrderedField α] (l : List α) :
    l.countP (fun s => decide ((7 : α) / 10 ≤ s))
      + l.countP (fun s => decide ((3 : α) / 10 ≤ s) && decide (s < (7 : α) / 10))
      + l.countP (fun s => decide (s < (3 : α) / 10)) = l.length := by
  induction l with
  | nil => simp
  | cons x xs ih =>
    have h37 : (3 : α) / 10 ≤ 7 / 10 := by norm_num
    simp only [List.countP_cons, List.length_cons, Bool.and_eq_true, decide_eq_true_eq]
    by_cases h7 : (7 : α) / 10 ≤ x
    · rw [if_pos h7, if_neg (fun hc => absurd hc.2 (not_lt.mpr h7)),
        if_neg (not_lt.mpr (le_trans h37 h7))]
      omega
    · by_cases h3 : (3 : α) / 10 ≤ x
      · rw [if_neg h7, if_pos ⟨h3, not_le.mp h7⟩, if_neg (not_lt.mpr h3)]
        omega
      · rw [if_neg h7, if_neg (fun hc => absurd hc.1 h3), if_pos (not_le.mp h3)]
        omega

/-- C10: for every set of active memories (with or without an owner
filter), in both variants the three bucket counts partition the total
number of active memories, and on an empty active set the statistics are
total `0`, average `0.0` and all three buckets `0` (no failing empty
average). -/
theorem C10_statistics_partition (db : SameTableDB ℚ) (dbA : ArchiveTableDB ℚ)
    (user_id : Option String) :
    ((get_decay_statistics db user_id).high_decay_count
        + (get_decay_statistics db user_id).medium_decay_count
        + (get_decay_statistics db user_id).low_decay_count
      = (get_decay_statistics db user_id).total_memories) ∧
    (activeMemories db.memories user_id = [] →
      get_decay_statistics db user_id
        = { total_memories := 0, average_decay_score := 0,
            high_decay_count := 0, medium_decay_count := 0, low_decay_count := 0 }) ∧
    ((get_decay_statistics_archive dbA user_id).high_decay_count
        + (get_decay_statistics_archive dbA user_id).medium_decay_count
        + (get_decay_statistics_archive dbA user_id).low_decay_count
      = (get_decay_statistics_archive dbA user_id).total_active_memories) ∧
    (activeMemories dbA.memories user_id = [] →
      (get_decay_statistics_archive dbA user_id).total_active_memories = 0 ∧
      (get_decay_statistics_archive dbA user_id).average_decay_score = 0 ∧
      (get_decay_statistics_archive dbA user_id).high_decay_count = 0 ∧
      (get_decay_statistics_archive dbA user_id).medium_decay_count = 0 ∧
      (get_decay_statistics_archive dbA user_id).low_decay_count = 0) := by
  refine ⟨?_, ?_, ?_, ?_⟩
  · by_cases h : (activeMemories db.memories user_id).isEmpty
    · simp [get_decay_statistics, h]
    · simp only [get_decay_statistics, h, if_false, Bool.false_eq_true]
      rw [bucket_partition]
      simp
  · intro h
    simp [get_decay_statistics, h]
  · by_cases h : (activeMemories dbA.memories user_id).isEmpty
    · simp [get_decay_statistics_archive, h]
    · simp only [get_decay_statistics_archive, h, if_false, Bool.false_eq_true]
      rw [bucket_partition]
      simp
  · intro h
    simp [get_decay_statistics_archive, h]

/-- Witness for C10 on empty databases. -/
theorem C10_statistics_partition_witness :
    activeMemories ((SameTableDB.mk [] [] [] : SameTableDB ℚ)).memories none = [] ∧
    activeMemories ((ArchiveTableDB.mk [] [] [] [] [] : ArchiveTableDB ℚ)).memories none = [] ∧
    get_decay_statistics (SameTableDB.mk [] [] [] : SameTableDB ℚ) none
      = { total_memories := 0, average_decay_score := 0,
          high_decay_count := 0, medium_decay_count := 0, low_decay_count := 0 } :=
  ⟨rfl, rfl,
    (C10_statistics_partition (SameTableDB.mk [] [] [])
      (ArchiveTableDB.mk [] [] [] [] []) none).2.1 rfl⟩

/-! ## C2: threshold boundary and batch limit -/

/-- Branch-free characterisation of `decay.py`'s
`auto_archive_decayed_memories`. -/
theorem auto_archive_decayed_memories_eq {α : Type} [LinearOrder α]
    (db : SameTableDB α) (threshold : α) (batch_size : Nat)
    (user_id : Option String) (nowWall : Int) :
    auto_archive_decayed_memories db threshold batch_size user_id nowWall
      = ({ db with
            memories := db.memories.map (fun m =>
              if m ∈ (archiveSelect db.memories threshold user_id).take batch_size then
                { m with state := MemoryState.archived,
                         archived_at := some (mkUTC nowWall) }
              else m),
            history := db.history
              ++ ((archiveSelect db.memories threshold user_id).take batch_size).map
                  (fun m => { memory_id := m.id, changed_by := m.user_id,
                              old_state := m.state,
                              new_state := MemoryState.archived }) },
          ((archiveSelect db.memories threshold user_id).take batch_size).length) := by
  unfold auto_archive_decayed_memories
  by_cases h : ((archiveSelect db.memories threshold user_id).take batch_size).isEmpty
  · rw [List.isEmpty_iff] at h
    simp [h]
  · simp [h]

theorem commitOps_append {α : Type} [DecidableEq α] (db : ArchiveTableDB α)
    (p q : List (SessionOp α)) :
    commitOps db (p ++ q) = commitOps (commitOps db p) q :=
  List.foldl_append _ _ _ _

/-- Committing the staged moves of a list of memories deletes exactly their
ids from the active table and appends one archive record and one history
row per memory, in order. -/
theorem commitOps_moveMemoryOps {α : Type} [DecidableEq α] (nowWall : Int) :
    ∀ (l : List (Mem α)) (db : ArchiveTableDB α),
    commitOps db (l.flatMap (moveMemoryOps nowWall))
      = { db with
          memories := db.memories.filter (fun x => decide (x.id ∉ l.map Mem.id)),
          archived := db.archived ++ l.map (archiveSnapshot nowWall),
          history := db.history ++ l.map (fun m =>
            { memory_id := m.id, changed_by := m.user_id,
              old_state := m.state, new_state := MemoryState.archived }) } := by
  intro l
  induction l with
  | nil =>
    intro db
    simp [commitOps]
  | cons m rest ih =>
    intro db
    have hone : commitOps db (moveMemoryOps nowWall m)
        = { db with
            memories := db.memories.filter (fun x => decide (x.id ≠ m.id)),
            archived := db.archived ++ [archiveSnapshot nowWall m],
            history := db.history ++
              [{ memory_id := m.id, changed_by := m.user_id,
                 old_state := m.state, new_state := MemoryState.archived }] } := rfl
    rw [List.flatMap_cons, commitOps_append, hone, ih]
    simp only [ArchiveTableDB.mk.injEq]
    refine ⟨?_, ?_, trivial, ?_, trivial⟩
    · rw [List.filter_filter]
      apply List.filter_congr
      intro x _
      by_cases h1 : x.id = m.id <;> by_cases h2 : x.id ∈ rest.map Mem.id <;>
        simp [h1, h2]
    · simp
    · simp

/-- While no record fails, the batch fold of the archive-table variant
stages the moves of all selected memories and counts them. -/
theorem foldl_move_step_no_fail {α : Type} (nowWall : Int) (failing : List String) :
    ∀ (sel : List (Mem α)) (init : List (SessionOp α) × Nat),
      (∀ m ∈ sel, m.id ∉ failing) →
      sel.foldl (fun acc m =>
          if m.id ∈ failing then ([], acc.2)
          else (acc.1 ++ moveMemoryOps nowWall m, acc.2 + 1)) init
        = (init.1 ++ sel.flatMap (moveMemoryOps nowWall), init.2 + sel.length) := by
  intro sel
  induction sel with
  | nil =>
    intro init h
    simp
  | cons m rest ih =>
    intro init h
    simp only [List.foldl_cons]
    rw [if_neg (h m (List.mem_cons_self m rest)), List.flatMap_cons,
      ih _ (fun x hx => h x (List.mem_cons_of_mem m hx))]
    refine Prod.ext ?_ ?_
    · simp [List.append_assoc]
    · simp only [List.length_cons]
      omega

/-- Branch-free characterisation of the archive-table
`auto_archive_decayed_memories` when no record fails. -/
theorem auto_archive_archive_eq_no_fail {α : Type} [LinearOrder α]
    (db : ArchiveTableDB α) (threshold : α) (batch_size : Nat)
    (user_id : Option String) (nowWall : Int) :
    auto_archive_decayed_memories_archive db threshold batch_size user_id [] nowWall
      = (commitOps db
          (((archiveSelect db.memories threshold user_id).take batch_size).flatMap
            (moveMemoryOps nowWall)),
         ((archiveSelect db.memories threshold user_id).take batch_size).length) := by
  unfold auto_archive_decayed_memories_archive
  by_cases h : ((archiveSelect db.memories threshold user_id).take batch_size).isEmpty
  · rw [List.isEmpty_iff] at h
    simp [h, commitOps]
  · simp only [h, if_false, Bool.false_eq_true]
    rw [foldl_move_step_no_fail nowWall [] _ _ (fun m _ => List.not_mem_nil m.id)]
    simp

/-- Membership in the archive-candidate selection forces a strictly
sub-threshold score. -/
theorem mem_archiveSelect_lt {α : Type} [LinearOrder α] {memories : List (Mem α)}
    {threshold : α} {user_id : Option String} {m : Mem α}
    (h : m ∈ archiveSelect memories threshold user_id) :
    m.state = MemoryState.active ∧ m.decay_score < threshold := by
  unfold archiveSelect at h
  have := List.of_mem_filter h
  simp only [Bool.and_eq_true, decide_eq_true_eq] at this
  exact ⟨this.1.1, this.1.2⟩

/-- C2: in both variants, `auto_archive_decayed_memories` archives a memory
only if its `decay_score` is strictly below the threshold: a memory exactly
at the threshold is left untouched, every newly archived record had a score
strictly below, at most `batch_size` memories are archived per call, and —
when the candidate set fits in one batch — every candidate is archived. -/
theorem C2_archive_threshold_boundary (db : SameTableDB ℚ)
    (dbA : ArchiveTableDB ℚ) (threshold : ℚ) (batch_size : Nat)
    (user_id : Option String) (nowWall : Int)
    (hidA : (dbA.memories.map Mem.id).Nodup) :
    (∀ m ∈ db.memories, m.decay_score = threshold →
      m ∈ (auto_archive_decayed_memories db threshold batch_size user_id nowWall).1.memories) ∧
    (∀ r ∈ (auto_archive_decayed_memories db threshold batch_size user_id nowWall).1.memories,
      r.state = MemoryState.archived → r ∈ db.memories ∨ r.decay_score < threshold) ∧
    (auto_archive_decayed_memories db threshold batch_size user_id nowWall).2 ≤ batch_size ∧
    ((archiveSelect db.memories threshold user_id).length ≤ batch_size →
      ∀ m ∈ archiveSelect db.memories threshold user_id,
        ∃ r ∈ (auto_archive_decayed_memories db threshold batch_size user_id nowWall).1.memories,
          r.id = m.id ∧ r.state = MemoryState.archived ∧ r.decay_score = m.decay_score) ∧
    (∀ m ∈ dbA.memories, m.decay_score = threshold →
      m ∈ (auto_archive_decayed_memories_archive dbA threshold batch_size user_id [] nowWall).1.memories) ∧
    (∀ a ∈ (auto_archive_decayed_memories_archive dbA threshold batch_size user_id [] nowWall).1.archived,
      a ∈ dbA.archived ∨ a.decay_score_at_archive < threshold) ∧
    (auto_archive_decayed_memories_archive dbA threshold batch_size user_id [] nowWall).2 ≤ batch_size ∧
    ((archiveSelect dbA.memories threshold user_id).length ≤ batch_size →
      ∀ m ∈ archiveSelect dbA.memories threshold user_id,
        ∃ a ∈ (auto_archive_decayed_memories_archive dbA threshold batch_size user_id [] nowWall).1.archived,
          a.id = m.id ∧ a.decay_score_at_archive = m.decay_score) := by
  have hsub : ∀ x ∈ (archiveSelect db.memories threshold user_id).take batch_size,
      x ∈ archiveSelect db.memories threshold user_id :=
    fun x hx => List.take_subset _ _ hx
  have hsubA : ∀ x ∈ (archiveSelect dbA.memories threshold user_id).take batch_size,
      x ∈ archiveSelect dbA.memories threshold user_id :=
    fun x hx => List.take_subset _ _ hx
  refine ⟨?_, ?_, ?_, ?_, ?_, ?_, ?_, ?_⟩
  · intro m hm hscore
    rw [auto_archive_decayed_memories_eq]
    have hnot : m ∉ (archiveSelect db.memories threshold user_id).take batch_size := by
      intro hin
      exact absurd hscore (ne_of_lt (mem_archiveSelect_lt (hsub m hin)).2)
    have hmap := List.mem_map_of_mem (fun m : Mem ℚ =>
        if m ∈ (archiveSelect db.memories threshold user_id).take batch_size then
          { m with state := MemoryState.archived, archived_at := some (mkUTC nowWall) }
        else m) hm
    simp only [if_neg hnot] at hmap
    exact hmap
  · intro r hr hstate
    rw [auto_archive_decayed_memories_eq] at hr
    simp only [List.mem_map] at hr
    obtain ⟨x, hx, hfx⟩ := hr
    by_cases hin : x ∈ (archiveSelect db.memories threshold user_id).take batch_size
    · right
      rw [if_pos hin] at hfx
      have hlt := (mem_archiveSelect_lt (hsub x hin)).2
      rw [← hfx]
      exact hlt
    · left
      rw [if_neg hin] at hfx
      exact hfx ▸ hx
  · rw [auto_archive_decayed_memories_eq]
    exact (List.length_take _ _).le.trans (min_le_left _ _)
  · intro hlen m hm
    rw [auto_archive_decayed_memories_eq]
    have htake : (archiveSelect db.memories threshold user_id).take batch_size
        = archiveSelect db.memories threshold user_id := List.take_of_length_le hlen
    have hmem : m ∈ db.memories := List.mem_of_mem_filter hm
    have htakemem : m ∈ (archiveSelect db.memories threshold user_id).take batch_size := by
      rw [htake]
      exact hm
    refine ⟨{ m with state := MemoryState.archived, archived_at := some (mkUTC nowWall) },
      ?_, rfl, rfl, rfl⟩
    have hmap := List.mem_map_of_mem (fun x : Mem ℚ =>
        if x ∈ (archiveSelect db.memories threshold user_id).take batch_size then
          { x with state := MemoryState.archived, archived_at := some (mkUTC nowWall) }
        else x) hmem
    simp only [if_pos htakemem] at hmap
    exact hmap
  · intro m hm hscore
    rw [auto_archive_archive_eq_no_fail]
    rw [commitOps_moveMemoryOps]
    simp only [List.mem_filter, decide_eq_true_eq]
    refine ⟨hm, ?_⟩
    intro hid
    simp only [List.mem_map] at hid
    obtain ⟨x, hx, hxid⟩ := hid
    have hxmem : x ∈ dbA.memories := List.mem_of_mem_filter (hsubA x hx)
    have hxeq : x = m := List.inj_on_of_nodup_map hidA hxmem hm hxid
    exact absurd hscore (ne_of_lt (hxeq ▸ (mem_archiveSelect_lt (hsubA x hx)).2))
  · intro a ha
    rw [auto_archive_archive_eq_no_fail, commitOps_moveMemoryOps] at ha
    simp only [List.mem_append, List.mem_map] at ha
    rcases ha with ha | ⟨x, hx, hxa⟩
    · exact Or.inl ha
    · right
      rw [← hxa]
      exact (mem_archiveSelect_lt (hsubA x hx)).2
  · rw [auto_archive_archive_eq_no_fail]
    exact (List.length_take _ _).le.trans (min_le_left _ _)
  · intro hlen m hm
    rw [auto_archive_archive_eq_no_fail, commitOps_moveMemoryOps]
    have htake : (archiveSelect dbA.memories threshold user_id).take batch_size
        = archiveSelect dbA.memories threshold user_id := List.take_of_length_le hlen
    refine ⟨archiveSnapshot nowWall m, ?_, rfl, rfl⟩
    simp only [List.mem_append, List.mem_map]
    exact Or.inr ⟨m, by rw [htake]; exact hm, rfl⟩


/-! ## Concrete sample data for witnesses and counterexamples -/

/-- A sample `memories` row with the given id, owner, state, scores, access
statistics and categories. -/
def mkSampleMem (id user : String) (st : MemoryState) (score imp : ℚ)
    (count : Int) (last : Option PyDatetime) (cats : List String) : Mem ℚ :=
  { id := id, user_id := user, app_id := "app", content := "content-" ++ id,
    vector := "", metadata_ := "", state := st,
    created_at := ⟨0, some 0⟩, updated_at := ⟨0, some 0⟩,
    archived_at := none, deleted_at := none,
    decay_score := score, last_accessed_at := last, access_count := count,
    importance_score := imp, categories := cats }

/-- Witness database for C2: two distinct low-score active memories. -/
def dbForC2 : ArchiveTableDB ℚ :=
  ⟨[mkSampleMem "a" "u" MemoryState.active (1/20) (1/2) 0 none [],
    mkSampleMem "b" "u" MemoryState.active (1/10) (1/2) 0 none []], [], [], [], []⟩

/-- Witness for C2 on a concrete two-memory database. -/
theorem C2_archive_threshold_boundary_witness :
    ((dbForC2.memories.map Mem.id).Nodup) ∧
    (auto_archive_decayed_memories_archive dbForC2 ((1 : ℚ)/10) 100 none [] 0).2 ≤ 100 :=
  ⟨by decide,
    (C2_archive_threshold_boundary ⟨[], [], []⟩ dbForC2 (1/10) 100 none 0
      (by decide)).2.2.2.2.2.2.1⟩

/-! ## C6: per-record failure during the archive batch -/

/-- Database for C6: two active memories `a` and `b`, both strictly below
the archive threshold `0.1`. -/
def dbForC6 : ArchiveTableDB ℚ :=
  ⟨[mkSampleMem "a" "u" MemoryState.active 0 1 0 none [],
    mkSampleMem "b" "u" MemoryState.active 0 1 0 none []], [], [], [], []⟩

/-- C6 failing input, evaluated: memory `a` is processed successfully, then
archiving memory `b` raises.  The `db.rollback()` in the `except` branch
discards the still-uncommitted move of `a` as well, so the run ends with
the database completely unchanged — `a` is still active, nothing is in the
archive table, no history was written — yet the function reports `1`
archived memory.  A per-record failure thus destroys the work of
previously processed records in the same batch, contradicting both the
spec's batch-isolation requirement and the function's own documented
return value (the count of archived memories). -/
theorem C6_rollback_discards_previous_records :
    auto_archive_decayed_memories_archive dbForC6 (1 : ℚ) 100 none ["b"] 0
      = (dbForC6, 1) ∧
    (auto_archive_decayed_memories_archive dbForC6 (1 : ℚ) 100 none ["b"] 0).1.archived
      = [] ∧
    (auto_archive_decayed_memories_archive dbForC6 (1 : ℚ) 100 none ["b"] 0).1.memories.map
        Mem.state
      = [MemoryState.active, MemoryState.active] := by
  decide

/-! ## C1: archive/restore round trip -/

/-- `move_memory_to_archive`, committed: delete the row, append the archive
snapshot and the history entry. -/
theorem move_memory_to_archive_eq {α : Type} [DecidableEq α]
    (db : ArchiveTableDB α) (m : Mem α) (nowWall : Int) :
    move_memory_to_archive db m nowWall
      = { db with
          memories := db.memories.filter (fun x => decide (x.id ≠ m.id)),
          archived := db.archived ++ [archiveSnapshot nowWall m],
          history := db.history ++
            [{ memory_id := m.id, changed_by := m.user_id,
               old_state := m.state, new_state := MemoryState.archived }] } := rfl

/-- `decay.py`'s restore when the lookup succeeds. -/
theorem restore_archived_memory_found {α : Type} [LinearOrderedField α]
    (db : SameTableDB α) (memory_id user_id : String) (m : Mem α)
    (h : db.memories.find? (fun x =>
        decide (x.id = memory_id) && decide (x.user_id = user_id) &&
        decide (x.state = MemoryState.archived)) = some m) :
    restore_archived_memory db memory_id user_id
      = ({ db with
            memories := db.memories.map (fun x =>
              if x = m then sameTableRestoredRow m else x),
            history := db.history ++
              [{ memory_id := m.id, changed_by := user_id,
                 old_state := m.state, new_state := MemoryState.active }] },
         true) := by
  unfold restore_archived_memory
  rw [h]

/-- The archive-table restore when the lookup succeeds. -/
theorem restore_archived_memory_archive_found {α : Type} [LinearOrderedField α]
    (db : ArchiveTableDB α) (memory_id user_id : String) (nowWall : Int)
    (a : ArchivedMem α)
    (h : db.archived.find? (fun x =>
        decide (x.id = memory_id) && decide (x.user_id = user_id)) = some a) :
    restore_archived_memory_archive db memory_id user_id nowWall
      = ({ db with
            memories := db.memories ++ [archiveRestoredRow db.categories a nowWall],
            history := db.history ++
              [{ memory_id := memory_id, changed_by := user_id,
                 old_state := MemoryState.archived, new_state := MemoryState.active }],
            archived := db.archived.filter (fun x => decide (x.id ≠ a.id)) },
         true) := by
  unfold restore_archived_memory_archive
  rw [h]

/-- C1 counterexample: the claim is false as stated for the same-table
variant.  A memory archived with `access_count = 3` and a non-null
`last_accessed_at` is restored with `decay_score = 1.0` and `state =
active`, but its `access_count` is still `3` and `last_accessed_at` is
still set: `decay.py`'s restore never resets them. -/
theorem C1_counterexample :
    (restore_archived_memory
        (⟨[mkSampleMem "m1" "u1" MemoryState.archived 0 1 3
            (some ⟨100, some 0⟩) []], [], []⟩ : SameTableDB ℚ) "m1" "u1").2 = true ∧
    (restore_archived_memory
        (⟨[mkSampleMem "m1" "u1" MemoryState.archived 0 1 3
            (some ⟨100, some 0⟩) []], [], []⟩ : SameTableDB ℚ) "m1" "u1").1.memories.map
        (fun m => (m.state, m.decay_score, m.access_count, m.last_accessed_at))
      = [(MemoryState.active, (1 : ℚ), 3, some ⟨100, some 0⟩)] := by
  decide

/-- C1 (amended): in the archive-table variant, archiving a memory and then
restoring it under its own owner succeeds and produces an active record
with `decay_score = 1.0`, `access_count = 0`, `last_accessed_at = None`,
the same `id` and `content`, `created_at` preserved, `importance_score`
carried over, and category membership rebuilt for every snapshotted
category name that still exists.  In the same-table variant the restored
record keeps its identity and gets `decay_score = 1.0`, `state = active`
and `archived_at = None`, but its `access_count` and `last_accessed_at`
are carried over unchanged rather than reset. -/
theorem C1_restore_round_trip (dbA : ArchiveTableDB ℚ) (m : Mem ℚ)
    (nw1 nw2 : Int) (db : SameTableDB ℚ) (memory_id user_id : String) (m2 : Mem ℚ)
    (hnone : ∀ a ∈ dbA.archived, ¬(a.id = m.id ∧ a.user_id = m.user_id))
    (hfind : db.memories.find? (fun x =>
        decide (x.id = memory_id) && decide (x.user_id = user_id) &&
        decide (x.state = MemoryState.archived)) = some m2) :
    ((restore_archived_memory_archive (move_memory_to_archive dbA m nw1)
        m.id m.user_id nw2).2 = true ∧
     ∃ r : Mem ℚ,
       (restore_archived_memory_archive (move_memory_to_archive dbA m nw1)
          m.id m.user_id nw2).1.memories.getLast? = some r ∧
       r.state = MemoryState.active ∧ r.decay_score = 1 ∧ r.access_count = 0 ∧
       r.last_accessed_at = none ∧ r.id = m.id ∧ r.content = m.content ∧
       r.created_at = m.created_at ∧ r.updated_at = mkUTC nw2 ∧
       r.importance_score = m.importance_score ∧
       r.categories = m.categories.filter (fun n => decide (n ∈ dbA.categories))) ∧
    ((restore_archived_memory db memory_id user_id).2 = true ∧
     sameTableRestoredRow m2
        ∈ (restore_archived_memory db memory_id user_id).1.memories ∧
     (sameTableRestoredRow m2).access_count = m2.access_count ∧
     (sameTableRestoredRow m2).last_accessed_at = m2.last_accessed_at) := by
  constructor
  · have hprefix : dbA.archived.find? (fun a =>
        decide (a.id = m.id) && decide (a.user_id = m.user_id)) = none := by
      rw [List.find?_eq_none]
      intro a ha
      simp only [Bool.and_eq_true, decide_eq_true_eq]
      intro h
      exact hnone a ha h
    have hfindA : (move_memory_to_archive dbA m nw1).archived.find? (fun a =>
        decide (a.id = m.id) && decide (a.user_id = m.user_id))
        = some (archiveSnapshot nw1 m) := by
      rw [move_memory_to_archive_eq]
      simp only [List.find?_append, hprefix, Option.none_or]
      apply List.find?_cons_of_pos
      simp [archiveSnapshot]
    rw [restore_archived_memory_archive_found _ _ _ _ _ hfindA]
    exact ⟨rfl, archiveRestoredRow (move_memory_to_archive dbA m nw1).categories
        (archiveSnapshot nw1 m) nw2,
      List.getLast?_concat _, rfl, rfl, rfl, rfl, rfl, rfl, rfl, rfl, rfl, rfl⟩
  · rw [restore_archived_memory_found _ _ _ _ hfind]
    have hmem : m2 ∈ db.memories := List.mem_of_find?_eq_some hfind
    have hmap := List.mem_map_of_mem (fun x : Mem ℚ =>
        if x = m2 then sameTableRestoredRow m2 else x) hmem
    simp only [eq_self_iff_true, if_true] at hmap
    exact ⟨rfl, hmap, rfl, rfl⟩

/-- Witness for C1 at a concrete memory with categories and access
history. -/
theorem C1_restore_round_trip_witness :
    (∀ a ∈ (⟨[mkSampleMem "m" "u" MemoryState.active 0 1 5
          (some ⟨50, some 0⟩) ["work", "gone"]], [], [], [],
          ["work", "play"]⟩ : ArchiveTableDB ℚ).archived,
        ¬(a.id = "m" ∧ a.user_id = "u")) ∧
    ((⟨[mkSampleMem "m1" "u1" MemoryState.archived 0 1 3
          (some ⟨100, some 0⟩) []], [], []⟩ : SameTableDB ℚ).memories.find? (fun x =>
        decide (x.id = "m1") && decide (x.user_id = "u1") &&
        decide (x.state = MemoryState.archived))
      = some (mkSampleMem "m1" "u1" MemoryState.archived 0 1 3
          (some ⟨100, some 0⟩) [])) ∧
    ∃ r : Mem ℚ,
      (restore_archived_memory_archive
          (move_memory_to_archive
            (⟨[mkSampleMem "m" "u" MemoryState.active 0 1 5
                (some ⟨50, some 0⟩) ["work", "gone"]], [], [], [],
                ["work", "play"]⟩ : ArchiveTableDB ℚ)
            (mkSampleMem "m" "u" MemoryState.active 0 1 5
              (some ⟨50, some 0⟩) ["work", "gone"]) 7)
          "m" "u" 9).1.memories.getLast? = some r ∧
      r.state = MemoryState.active ∧ r.decay_score = 1 ∧ r.access_count = 0 ∧
      r.last_accessed_at = none ∧ r.id = "m" ∧ r.content = "content-m" ∧
      r.created_at = ⟨0, some 0⟩ ∧ r.updated_at = mkUTC 9 ∧
      r.importance_score = 1 ∧ r.categories = ["work"] := by
  refine ⟨by decide, by decide, ?_⟩
  have h := (C1_restore_round_trip
      (⟨[mkSampleMem "m" "u" MemoryState.active 0 1 5
          (some ⟨50, some 0⟩) ["work", "gone"]], [], [], [], ["work", "play"]⟩ : ArchiveTableDB ℚ)
      (mkSampleMem "m" "u" MemoryState.active 0 1 5
        (some ⟨50, some 0⟩) ["work", "gone"]) 7 9
      (⟨[mkSampleMem "m1" "u1" MemoryState.archived 0 1 3
          (some ⟨100, some 0⟩) []], [], []⟩ : SameTableDB ℚ) "m1" "u1"
      (mkSampleMem "m1" "u1" MemoryState.archived 0 1 3
        (some ⟨100, some 0⟩) [])
      (by decide) (by decide)).1.2
  obtain ⟨r, hr, hrest⟩ := h
  exact ⟨r, hr, hrest.1, hrest.2.1, hrest.2.2.1, hrest.2.2.2.1,
    hrest.2.2.2.2.1, by rw [hrest.2.2.2.2.2.1]; rfl, hrest.2.2.2.2.2.2.1,
    hrest.2.2.2.2.2.2.2.1, hrest.2.2.2.2.2.2.2.2.1,
    by rw [hrest.2.2.2.2.2.2.2.2.2]; rfl⟩

/-! ## C8: the decay-score update batch (`update_memory_decay_scores`) -/

/-- Python `max` of two datetimes: comparison of a naive and an aware
datetime raises `TypeError`; on a tie the first (current maximum) wins. -/
def pyCmpMax (a b : PyDatetime) : Option PyDatetime :=
  match a.tzOffset, b.tzOffset with
  | some x, some y => some (if b.wall - y > a.wall - x then b else a)
  | none, none => some (if b.wall > a.wall then b else a)
  | _, _ => none

/-- Python `max(...)` over a non-empty generator of datetimes. -/
def pyMaxList : List PyDatetime → Option PyDatetime
  | [] => none
  | x :: xs => xs.foldl (fun acc b => acc.bind (fun a => pyCmpMax a b)) (some x)

/-- `update_memory_access_stats`: recompute `(access_count, last_accessed)`
from the access log — `count = len(logs)`, `last = max(timestamps)` when
the log is non-empty (`None` otherwise).  The `Option` is the exception
path: `max` raises on mixed naive/aware timestamps. -/
def update_memory_access_stats (logs : List MemoryAccessLogEntry)
    (memory_id : String) : Option (Nat × Option PyDatetime) :=
  let access_logs := logs.filter (fun l => decide (l.memory_id = memory_id))
  if access_logs.isEmpty then some (access_logs.length, none)
  else (pyMaxList (access_logs.map (fun l => l.accessed_at))).map
    (fun d => (access_logs.length, some d))

/-- `update_single_memory_decay`, parameterised by the composite-score
function the caller wires in (the batch callers pass `calculate_decay_score`
at a fixed half-life and `now`): recompute the access stats, compute the
score, and write `decay_score`, `last_accessed_at`, `access_count` and
`updated_at` back to the row.  `none` is the exception path caught by the
batch loop (nothing is written in that case, since both fallible steps
precede the first field assignment). -/
def update_single_memory_decay {α : Type}
    (score_fn : PyDatetime → Option PyDatetime → Int → α → Option α)
    (logs : List MemoryAccessLogEntry) (nowWall : Int) (m : Mem α) :
    Option (Mem α) :=
  (update_memory_access_stats logs m.id).bind fun stats =>
    (score_fn m.created_at stats.2 (stats.1 : Int) m.importance_score).bind
      fun new_score =>
        some { m with decay_score := new_score, last_accessed_at := stats.2,
                      access_count := (stats.1 : Int), updated_at := mkUTC nowWall }

/-- One page of the update batch: for each fetched row, try
`update_single_memory_decay` and write the result back (the fetched object
is the table row, modelled as replacement by primary key); an exception is
logged and the row skipped.  Returns the new state and the number of rows
updated in this page. -/
def runUpdatePage {α : Type} [DecidableEq α]
    (score_fn : PyDatetime → Option PyDatetime → Int → α → Option α)
    (nowWall : Int) (db : SameTableDB α) (page : List (Mem α)) :
    SameTableDB α × Nat :=
  page.foldl (fun acc m =>
    match update_single_memory_decay score_fn acc.1.access_logs nowWall m with
    | some updated =>
      ({ acc.1 with memories := acc.1.memories.map (fun x =>
          if decide (x.id = m.id) then updated else x) }, acc.2 + 1)
    | none => acc) (db, 0)

theorem runUpdatePage_fold_invariant {α : Type} [DecidableEq α]
    (score_fn : PyDatetime → Option PyDatetime → Int → α → Option α)
    (nowWall : Int) :
    ∀ (page : List (Mem α)) (db : SameTableDB α) (c : Nat),
      (page.foldl (fun acc m =>
        match update_single_memory_decay score_fn acc.1.access_logs nowWall m with
        | some updated =>
          ({ acc.1 with memories := acc.1.memories.map (fun x =>
              if decide (x.id = m.id) then updated else x) }, acc.2 + 1)
        | none => acc) (db, c)).1.memories.length = db.memories.length ∧
      (page.foldl (fun acc m =>
        match update_single_memory_decay score_fn acc.1.access_logs nowWall m with
        | some updated =>
          ({ acc.1 with memories := acc.1.memories.map (fun x =>
              if decide (x.id = m.id) then updated else x) }, acc.2 + 1)
        | none => acc) (db, c)).1.access_logs = db.access_logs := by
  intro page
  induction page with
  | nil =>
    intro db c
    exact ⟨rfl, rfl⟩
  | cons m rest ih =>
    intro db c
    simp only [List.foldl_cons]
    cases update_single_memory_decay score_fn db.access_logs nowWall m with
    | none => exact ih db c
    | some updated =>
      refine ⟨?_, ?_⟩
      · rw [(ih _ _).1]
        simp
      · rw [(ih _ _).2]

theorem runUpdatePage_memories_length {α : Type} [DecidableEq α]
    (score_fn : PyDatetime → Option PyDatetime → Int → α → Option α)
    (nowWall : Int) (db : SameTableDB α) (page : List (Mem α)) :
    (runUpdatePage score_fn nowWall db page).1.memories.length
      = db.memories.length :=
  (runUpdatePage_fold_invariant score_fn nowWall page db 0).1

theorem runUpdatePage_access_logs {α : Type} [DecidableEq α]
    (score_fn : PyDatetime → Option PyDatetime → Int → α → Option α)
    (nowWall : Int) (db : SameTableDB α) (page : List (Mem α)) :
    (runUpdatePage score_fn nowWall db page).1.access_logs = db.access_logs :=
  (runUpdatePage_fold_invariant score_fn nowWall page db 0).2

/-- The offset-paged `while True` loop of `update_memory_decay_scores`:
query one page of active memories at the current offset, update each row of
the page, commit, advance the offset by `batch_size`, stop on an empty
page.  Returns the final state and the total number of rows updated. -/
def update_decay_scores_from {α : Type} [DecidableEq α]
    (score_fn : PyDatetime → Option PyDatetime → Int → α → Option α)
    (nowWall : Int) (batch_size : Nat) (user_id : Option String)
    (offset : Nat) (db : SameTableDB α) : SameTableDB α × Nat :=
  if h : (((activeMemories db.memories user_id).drop offset).take batch_size).isEmpty then
    (db, 0)
  else
    let r := runUpdatePage score_fn nowWall db
      (((activeMemories db.memories user_id).drop offset).take batch_size)
    let rest := update_decay_scores_from score_fn nowWall batch_size user_id
      (offset + batch_size) r.1
    (rest.1, r.2 + rest.2)
termination_by db.memories.length - offset
decreasing_by
  have hne : ¬(((activeMemories db.memories user_id).drop offset).take batch_size) = [] := by
    simpa [List.isEmpty_iff] using h
  have hb : batch_size ≠ 0 := by
    rintro rfl
    exact hne (List.take_zero _)
  have hdrop : (activeMemories db.memories user_id).drop offset ≠ [] := by
    intro hd
    exact hne (by rw [hd, List.take_nil])
  have hoff : offset < (activeMemories db.memories user_id).length := by
    by_contra hle
    push_neg at hle
    exact hdrop (List.drop_eq_nil_of_le hle)
  have hle2 : (activeMemories db.memories user_id).length ≤ db.memories.length :=
    List.length_filter_le _ _
  have hlen := runUpdatePage_memories_length score_fn nowWall db
    (((activeMemories db.memories user_id).drop offset).take batch_size)
  simp only [hlen]
  omega

/-- `update_memory_decay_scores` from `decay.py`: the paged batch wired to
`calculate_decay_score` with the given half-life and the `now` observed
during the run. -/
noncomputable def update_memory_decay_scores (db : SameTableDB ℝ)
    (batch_size : Nat) (half_life_days : Int) (user_id : Option String)
    (nowWall : Int) : SameTableDB ℝ × Nat :=
  update_decay_scores_from
    (fun created_at last_accessed_at access_count importance_score =>
      calculate_decay_score created_at last_accessed_at access_count
        importance_score half_life_days nowWall)
    nowWall batch_size user_id 0 db

/-- The row as left behind by one loop iteration: the updated row on
success, the untouched row when the update raised. -/
def afterUpdate {α : Type}
    (score_fn : PyDatetime → Option PyDatetime → Int → α → Option α)
    (logs : List MemoryAccessLogEntry) (nowWall : Int) (m : Mem α) : Mem α :=
  match update_single_memory_decay score_fn logs nowWall m with
  | some updated => updated
  | none => m

/-- A row on which re-running the single update would either raise again or
rewrite exactly the values it already holds. -/
def StableRow {α : Type}
    (score_fn : PyDatetime → Option PyDatetime → Int → α → Option α)
    (logs : List MemoryAccessLogEntry) (nowWall : Int) (m : Mem α) : Prop :=
  update_single_memory_decay score_fn logs nowWall m = none ∨
  update_single_memory_decay score_fn logs nowWall m = some m

/-- A successful single update only writes `decay_score`,
`last_accessed_at`, `access_count` and `updated_at`; in particular the
fields the recomputation reads — `id`, `created_at`, `importance_score` —
and the query fields `state`, `user_id` are untouched. -/
theorem update_single_fields {α : Type}
    {score_fn : PyDatetime → Option PyDatetime → Int → α → Option α}
    {logs : List MemoryAccessLogEntry} {nowWall : Int} {m mu : Mem α}
    (h : update_single_memory_decay score_fn logs nowWall m = some mu) :
    mu.id = m.id ∧ mu.user_id = m.user_id ∧ mu.state = m.state ∧
    mu.created_at = m.created_at ∧ mu.importance_score = m.importance_score := by
  unfold update_single_memory_decay at h
  cases hs : update_memory_access_stats logs m.id with
  | none => rw [hs] at h; simp at h
  | some stats =>
    rw [hs] at h
    simp only [Option.some_bind] at h
    cases hf : score_fn m.created_at stats.2 (stats.1 : Int) m.importance_score with
    | none => rw [hf] at h; simp at h
    | some v =>
      rw [hf] at h
      simp only [Option.some_bind, Option.some.injEq] at h
      rw [← h]
      exact ⟨rfl, rfl, rfl, rfl, rfl⟩

/-- Re-running the single update on its own output rewrites the same
values: the recomputation reads only the log (unchanged) and the fields the
update does not touch. -/
theorem update_single_stable {α : Type}
    {score_fn : PyDatetime → Option PyDatetime → Int → α → Option α}
    {logs : List MemoryAccessLogEntry} {nowWall : Int} {m mu : Mem α}
    (h : update_single_memory_decay score_fn logs nowWall m = some mu) :
    update_single_memory_decay score_fn logs nowWall mu = some mu := by
  unfold update_single_memory_decay at h ⊢
  cases hs : update_memory_access_stats logs m.id with
  | none => rw [hs] at h; simp at h
  | some stats =>
    rw [hs] at h
    simp only [Option.some_bind] at h
    cases hf : score_fn m.created_at stats.2 (stats.1 : Int) m.importance_score with
    | none => rw [hf] at h; simp at h
    | some v =>
      rw [hf] at h
      simp only [Option.some_bind, Option.some.injEq] at h
      subst h
      rw [hs]
      simp only [Option.some_bind]
      rw [hf]
      rfl

theorem afterUpdate_stable {α : Type}
    (score_fn : PyDatetime → Option PyDatetime → Int → α → Option α)
    (logs : List MemoryAccessLogEntry) (nowWall : Int) (m : Mem α) :
    StableRow score_fn logs nowWall (afterUpdate score_fn logs nowWall m) := by
  unfold afterUpdate StableRow
  cases h : update_single_memory_decay score_fn logs nowWall m with
  | none => exact Or.inl h
  | some mu => exact Or.inr (update_single_stable h)

theorem afterUpdate_eq_self_of_stable {α : Type}
    {score_fn : PyDatetime → Option PyDatetime → Int → α → Option α}
    {logs : List MemoryAccessLogEntry} {nowWall : Int} {m : Mem α}
    (h : StableRow score_fn logs nowWall m) :
    afterUpdate score_fn logs nowWall m = m := by
  unfold afterUpdate
  rcases h with h | h <;> rw [h]

theorem afterUpdate_preserves {α : Type}
    (score_fn : PyDatetime → Option PyDatetime → Int → α → Option α)
    (logs : List MemoryAccessLogEntry) (nowWall : Int) (m : Mem α) :
    (afterUpdate score_fn logs nowWall m).id = m.id ∧
    (afterUpdate score_fn logs nowWall m).user_id = m.user_id ∧
    (afterUpdate score_fn logs nowWall m).state = m.state := by
  unfold afterUpdate
  cases h : update_single_memory_decay score_fn logs nowWall m with
  | none => exact ⟨rfl, rfl, rfl⟩
  | some mu =>
    obtain ⟨h1, h2, h3, _, _⟩ := update_single_fields h
    exact ⟨h1, h2, h3⟩

/-- The state change of one loop iteration (ignoring the counter). -/
def applyRowUpdate {α : Type} [DecidableEq α]
    (score_fn : PyDatetime → Option PyDatetime → Int → α → Option α)
    (nowWall : Int) (db : SameTableDB α) (m : Mem α) : SameTableDB α :=
  match update_single_memory_decay score_fn db.access_logs nowWall m with
  | some updated =>
    { db with memories := db.memories.map (fun x =>
        if decide (x.id = m.id) then updated else x) }
  | none => db

theorem runUpdatePage_fst {α : Type} [DecidableEq α]
    (score_fn : PyDatetime → Option PyDatetime → Int → α → Option α)
    (nowWall : Int) :
    ∀ (page : List (Mem α)) (db : SameTableDB α) (c : Nat),
      (page.foldl (fun acc m =>
        match update_single_memory_decay score_fn acc.1.access_logs nowWall m with
        | some updated =>
          ({ acc.1 with memories := acc.1.memories.map (fun x =>
              if decide (x.id = m.id) then updated else x) }, acc.2 + 1)
        | none => acc) (db, c)).1
        = page.foldl (applyRowUpdate score_fn nowWall) db := by
  intro page
  induction page with
  | nil =>
    intro db c
    rfl
  | cons m rest ih =>
    intro db c
    simp only [List.foldl_cons]
    unfold applyRowUpdate
    cases h : update_single_memory_decay score_fn db.access_logs nowWall m with
    | none =>
      simp only [h]
      exact ih db c
    | some updated =>
      simp only [h]
      exact ih _ _

theorem runUpdatePage_fst_def {α : Type} [DecidableEq α]
    (score_fn : PyDatetime → Option PyDatetime → Int → α → Option α)
    (nowWall : Int) (db : SameTableDB α) (page : List (Mem α)) :
    (runUpdatePage score_fn nowWall db page).1
      = page.foldl (applyRowUpdate score_fn nowWall) db :=
  runUpdatePage_fst score_fn nowWall page db 0

theorem applyRowUpdate_eq {α : Type} [DecidableEq α]
    (score_fn : PyDatetime → Option PyDatetime → Int → α → Option α)
    (nowWall : Int) (db : SameTableDB α) (m : Mem α)
    (hnd : (db.memories.map Mem.id).Nodup) (hm : m ∈ db.memories) :
    applyRowUpdate score_fn nowWall db m
      = { db with memories := db.memories.map (fun x =>
          if x = m then afterUpdate score_fn db.access_logs nowWall m else x) } := by
  cases h : update_single_memory_decay score_fn db.access_logs nowWall m with
  | none =>
    have h1 : applyRowUpdate score_fn nowWall db m = db := by
      unfold applyRowUpdate
      rw [h]
    have h2 : afterUpdate score_fn db.access_logs nowWall m = m := by
      unfold afterUpdate
      rw [h]
    rw [h1, h2]
    have hmap : db.memories.map (fun x => if x = m then m else x) = db.memories := by
      rw [show (fun x : Mem α => if x = m then m else x) = id from ?_, List.map_id]
      funext x
      by_cases hx : x = m
      · rw [if_pos hx, hx]
        rfl
      · rw [if_neg hx]
        rfl
    rw [hmap]
  | some updated =>
    have h1 : applyRowUpdate score_fn nowWall db m
        = { db with memories := db.memories.map (fun x =>
            if decide (x.id = m.id) then updated else x) } := by
      unfold applyRowUpdate
      rw [h]
    have h2 : afterUpdate score_fn db.access_logs nowWall m = updated := by
      unfold afterUpdate
      rw [h]
    rw [h1, h2]
    congr 1
    apply List.map_congr_left
    intro x hx
    by_cases hxm : x = m
    · subst hxm
      simp only [eq_self_iff_true, if_true, decide_True]
    · rw [if_neg hxm]
      have hxid : ¬(x.id = m.id) := by
        intro hid
        exact hxm (List.inj_on_of_nodup_map hnd hx hm hid)
      rw [if_neg (by simpa using hxid)]

/-- Running one page replaces exactly the page's rows by their
post-update values, provided ids are unique.  The access log never
changes. -/
theorem foldl_applyRowUpdate_eq {α : Type} [DecidableEq α]
    (score_fn : PyDatetime → Option PyDatetime → Int → α → Option α)
    (nowWall : Int) :
    ∀ (page : List (Mem α)) (db : SameTableDB α),
      (db.memories.map Mem.id).Nodup →
      (∀ x ∈ page, x ∈ db.memories) →
      (page.map Mem.id).Nodup →
      page.foldl (applyRowUpdate score_fn nowWall) db
        = { db with memories := db.memories.map (fun x =>
            if x ∈ page then afterUpdate score_fn db.access_logs nowWall x
            else x) } := by
  intro page
  induction page with
  | nil =>
    intro db hnd hsub hpnd
    simp only [List.foldl_nil, List.not_mem_nil, if_false]
    have : db.memories.map (fun x : Mem α => x) = db.memories := by
      rw [show (fun x : Mem α => x) = id from rfl, List.map_id]
    rw [this]
  | cons m rest ih =>
    intro db hnd hsub hpnd
    have hm : m ∈ db.memories := hsub m (List.mem_cons_self m rest)
    have hmid : m.id ∉ rest.map Mem.id := by
      intro hin
      simp only [List.map_cons, List.nodup_cons] at hpnd
      exact hpnd.1 hin
    have hrestnd : (rest.map Mem.id).Nodup := by
      simp only [List.map_cons, List.nodup_cons] at hpnd
      exact hpnd.2
    simp only [List.foldl_cons]
    rw [applyRowUpdate_eq score_fn nowWall db m hnd hm]
    set au := afterUpdate score_fn db.access_logs nowWall with hau
    set db1 : SameTableDB α :=
      { db with memories := db.memories.map (fun x => if x = m then au m else x) }
      with hdb1
    have hlogs1 : db1.access_logs = db.access_logs := rfl
    have hids1 : db1.memories.map Mem.id = db.memories.map Mem.id := by
      rw [hdb1]
      simp only [List.map_map]
      apply List.map_congr_left
      intro x hx
      by_cases hxm : x = m
      · subst hxm
        simp only [Function.comp, eq_self_iff_true, if_true]
        exact (afterUpdate_preserves score_fn db.access_logs nowWall x).1
      · simp only [Function.comp]
        rw [if_neg hxm]
    have hnd1 : (db1.memories.map Mem.id).Nodup := by
      rw [hids1]
      exact hnd
    have hsub1 : ∀ x ∈ rest, x ∈ db1.memories := by
      intro x hx
      have hxm : ¬(x = m) := by
        intro hxe
        subst hxe
        exact hmid (List.mem_map_of_mem Mem.id hx)
      have := List.mem_map_of_mem (fun y : Mem α => if y = m then au m else y)
        (hsub x (List.mem_cons_of_mem m hx))
      simp only [if_neg hxm] at this
      exact this
    rw [ih db1 hnd1 hsub1 hrestnd, hlogs1]
    rw [hdb1]
    simp only [List.map_map]
    congr 1
    apply List.map_congr_left
    intro y hy
    simp only [Function.comp]
    by_cases hym : y = m
    · subst hym
      simp only [eq_self_iff_true, if_true]
      have haum : au y ∉ rest := by
        intro hin
        apply hmid
        have := List.mem_map_of_mem Mem.id hin
        rwa [(afterUpdate_preserves score_fn db.access_logs nowWall y).1] at this
      rw [if_neg haum, if_pos (List.mem_cons_self y rest)]
    · rw [if_neg hym]
      by_cases hyr : y ∈ rest
      · rw [if_pos hyr, if_pos (List.mem_cons_of_mem m hyr)]
      · rw [if_neg hyr, if_neg (by
          intro hin
          rcases List.mem_cons.mp hin with h | h
          · exact hym h
          · exact hyr h)]

/-- `runUpdatePage`, fully characterised under unique ids. -/
theorem runUpdatePage_fst_eq {α : Type} [DecidableEq α]
    (score_fn : PyDatetime → Option PyDatetime → Int → α → Option α)
    (nowWall : Int) (db : SameTableDB α) (page : List (Mem α))
    (hnd : (db.memories.map Mem.id).Nodup)
    (hsub : ∀ x ∈ page, x ∈ db.memories)
    (hpnd : (page.map Mem.id).Nodup) :
    (runUpdatePage score_fn nowWall db page).1
      = { db with memories := db.memories.map (fun x =>
          if x ∈ page then afterUpdate score_fn db.access_logs nowWall x
          else x) } := by
  rw [runUpdatePage_fst_def]
  exact foldl_applyRowUpdate_eq score_fn nowWall page db hnd hsub hpnd

/-- Filtering for active rows commutes with a row map that preserves
`state` and `user_id`. -/
theorem activeMemories_map {α : Type} (g : Mem α → Mem α) (l : List (Mem α))
    (user_id : Option String)
    (h : ∀ x ∈ l, (g x).state = x.state ∧ (g x).user_id = x.user_id) :
    activeMemories (l.map g) user_id = (activeMemories l user_id).map g := by
  unfold activeMemories
  rw [List.filter_map]
  congr 1
  apply List.filter_congr
  intro x hx
  simp only [Function.comp]
  rw [(h x hx).1]
  unfold userMatch
  cases user_id with
  | none => rfl
  | some u => rw [(h x hx).2]

/-- Every active row of the database would be rewritten to exactly the
values it already holds (or raise again) by the single-row update: the
fixed point the batch establishes. -/
def SettledDB {α : Type}
    (score_fn : PyDatetime → Option PyDatetime → Int → α → Option α)
    (nowWall : Int) (user_id : Option String) (db : SameTableDB α) : Prop :=
  ∀ m ∈ activeMemories db.memories user_id,
    StableRow score_fn db.access_logs nowWall m

/-- On a settled database the whole paged loop leaves the state
untouched. -/
theorem update_decay_scores_from_of_settled {α : Type} [DecidableEq α]
    (score_fn : PyDatetime → Option PyDatetime → Int → α → Option α)
    (nowWall : Int) (batch_size : Nat) (user_id : Option String) :
    ∀ (k offset : Nat) (db : SameTableDB α),
      (activeMemories db.memories user_id).length ≤ offset + k →
      (db.memories.map Mem.id).Nodup →
      SettledDB score_fn nowWall user_id db →
      (update_decay_scores_from score_fn nowWall batch_size user_id offset db).1
        = db := by
  intro k
  induction k with
  | zero =>
    intro offset db hlen hnd hset
    have hdrop : (activeMemories db.memories user_id).drop offset = [] :=
      List.drop_eq_nil_iff.mpr (by omega)
    rw [update_decay_scores_from, dif_pos (by rw [hdrop, List.take_nil]; rfl)]
  | succ k ih =>
    intro offset db hlen hnd hset
    by_cases hpage :
        (((activeMemories db.memories user_id).drop offset).take batch_size).isEmpty
    · rw [update_decay_scores_from, dif_pos hpage]
    · have hbs : batch_size ≠ 0 := by
        intro h0
        subst h0
        exact hpage (by rw [List.take_zero]; rfl)
      have hslA : (((activeMemories db.memories user_id).drop offset).take
          batch_size).Sublist (activeMemories db.memories user_id) :=
        (List.take_sublist _ _).trans (List.drop_sublist _ _)
      have hslM : (((activeMemories db.memories user_id).drop offset).take
          batch_size).Sublist db.memories :=
        hslA.trans (List.filter_sublist _)
      have hsub : ∀ x ∈ ((activeMemories db.memories user_id).drop offset).take
          batch_size, x ∈ db.memories := fun x hx => hslM.subset hx
      have hpnd : ((((activeMemories db.memories user_id).drop offset).take
          batch_size).map Mem.id).Nodup :=
        List.Nodup.sublist (hslM.map Mem.id) hnd
      have hfix : (runUpdatePage score_fn nowWall db
          (((activeMemories db.memories user_id).drop offset).take batch_size)).1
          = db := by
        rw [runUpdatePage_fst_eq score_fn nowWall db _ hnd hsub hpnd]
        have hmap : db.memories.map (fun x =>
            if x ∈ ((activeMemories db.memories user_id).drop offset).take batch_size
            then afterUpdate score_fn db.access_logs nowWall x else x)
            = db.memories := by
          have := List.map_congr_left (l := db.memories)
            (f := fun x =>
              if x ∈ ((activeMemories db.memories user_id).drop offset).take batch_size
              then afterUpdate score_fn db.access_logs nowWall x else x)
            (g := id) ?_
          · rw [this, List.map_id]
          · intro x hx
            by_cases hxp : x ∈ ((activeMemories db.memories user_id).drop offset).take
                batch_size
            · simp only [if_pos hxp, id]
              exact afterUpdate_eq_self_of_stable (hset x (hslA.subset hxp))
            · simp only [if_neg hxp, id]
        rw [hmap]
      have hstep : (update_decay_scores_from score_fn nowWall batch_size user_id
            offset db).1
          = (update_decay_scores_from score_fn nowWall batch_size user_id
              (offset + batch_size)
              (runUpdatePage score_fn nowWall db
                (((activeMemories db.memories user_id).drop offset).take
                  batch_size)).1).1 := by
        conv_lhs => rw [update_decay_scores_from]
        rw [dif_neg hpage]
      rw [hstep, hfix]
      exact ih (offset + batch_size) db (by omega) hnd hset

/-- Running the batch from a prefix-settled offset settles the whole
active set: ids stay unique, the access log is untouched, and every active
row of the final state is a fixed point of the single-row update. -/
theorem update_decay_scores_from_settles {α : Type} [DecidableEq α]
    (score_fn : PyDatetime → Option PyDatetime → Int → α → Option α)
    (nowWall : Int) (batch_size : Nat) (user_id : Option String)
    (hbs : batch_size ≠ 0) :
    ∀ (k offset : Nat) (db : SameTableDB α),
      (activeMemories db.memories user_id).length ≤ offset + k →
      (db.memories.map Mem.id).Nodup →
      (∀ m ∈ (activeMemories db.memories user_id).take offset,
        StableRow score_fn db.access_logs nowWall m) →
      (((update_decay_scores_from score_fn nowWall batch_size user_id offset
          db).1.memories.map Mem.id).Nodup) ∧
      (update_decay_scores_from score_fn nowWall batch_size user_id offset
          db).1.access_logs = db.access_logs ∧
      SettledDB score_fn nowWall user_id
        (update_decay_scores_from score_fn nowWall batch_size user_id offset db).1 := by
  intro k
  induction k with
  | zero =>
    intro offset db hlen hnd hpre
    have hdrop : (activeMemories db.memories user_id).drop offset = [] :=
      List.drop_eq_nil_iff.mpr (by omega)
    rw [update_decay_scores_from, dif_pos (by rw [hdrop, List.take_nil]; rfl)]
    refine ⟨hnd, rfl, ?_⟩
    intro m hm
    apply hpre
    rw [List.take_of_length_le (by omega)]
    exact hm
  | succ k ih =>
    intro offset db hlen hnd hpre
    by_cases hpage :
        (((activeMemories db.memories user_id).drop offset).take batch_size).isEmpty
    · rw [update_decay_scores_from, dif_pos hpage]
      refine ⟨hnd, rfl, ?_⟩
      have hnil : (activeMemories db.memories user_id).drop offset = [] := by
        rcases List.take_eq_nil_iff.mp (List.isEmpty_iff.mp hpage) with h | h
        · exact absurd h hbs
        · exact h
      have hlen2 : (activeMemories db.memories user_id).length ≤ offset :=
        List.drop_eq_nil_iff.mp hnil
      intro m hm
      apply hpre
      rw [List.take_of_length_le hlen2]
      exact hm
    · have hslA : (((activeMemories db.memories user_id).drop offset).take
          batch_size).Sublist (activeMemories db.memories user_id) :=
        (List.take_sublist _ _).trans (List.drop_sublist _ _)
      have hslM : (((activeMemories db.memories user_id).drop offset).take
          batch_size).Sublist db.memories :=
        hslA.trans (List.filter_sublist _)
      have hsub : ∀ x ∈ ((activeMemories db.memories user_id).drop offset).take
          batch_size, x ∈ db.memories := fun x hx => hslM.subset hx
      have hpnd : ((((activeMemories db.memories user_id).drop offset).take
          batch_size).map Mem.id).Nodup :=
        List.Nodup.sublist (hslM.map Mem.id) hnd
      have hdb1 : (runUpdatePage score_fn nowWall db
            (((activeMemories db.memories user_id).drop offset).take batch_size)).1
          = { db with memories := db.memories.map (fun x =>
              if x ∈ ((activeMemories db.memories user_id).drop offset).take
                  batch_size
              then afterUpdate score_fn db.access_logs nowWall x else x) } :=
        runUpdatePage_fst_eq score_fn nowWall db _ hnd hsub hpnd
      have hgpres : ∀ x ∈ db.memories,
          ((fun x : Mem α =>
            if x ∈ ((activeMemories db.memories user_id).drop offset).take batch_size
            then afterUpdate score_fn db.access_logs nowWall x else x) x).state
              = x.state ∧
          ((fun x : Mem α =>
            if x ∈ ((activeMemories db.memories user_id).drop offset).take batch_size
            then afterUpdate score_fn db.access_logs nowWall x else x) x).user_id
              = x.user_id := by
        intro x hx
        by_cases hxp : x ∈ ((activeMemories db.memories user_id).drop offset).take
            batch_size
        · simp only [if_pos hxp]
          exact ⟨(afterUpdate_preserves score_fn db.access_logs nowWall x).2.2,
                 (afterUpdate_preserves score_fn db.access_logs nowWall x).2.1⟩
        · simp only [if_neg hxp]
          exact ⟨trivial, trivial⟩
      have hlogs1 : (runUpdatePage score_fn nowWall db
            (((activeMemories db.memories user_id).drop offset).take batch_size)).1.access_logs
          = db.access_logs := by
        rw [hdb1]
      have hids1 : (runUpdatePage score_fn nowWall db
            (((activeMemories db.memories user_id).drop offset).take batch_size)).1.memories.map
            Mem.id
          = db.memories.map Mem.id := by
        rw [hdb1]
        simp only [List.map_map]
        apply List.map_congr_left
        intro x hx
        simp only [Function.comp]
        by_cases hxp : x ∈ ((activeMemories db.memories user_id).drop offset).take
            batch_size
        · simp only [if_pos hxp]
          exact (afterUpdate_preserves score_fn db.access_logs nowWall x).1
        · simp only [if_neg hxp]
      have hnd1 : ((runUpdatePage score_fn nowWall db
            (((activeMemories db.memories user_id).drop offset).take
              batch_size)).1.memories.map Mem.id).Nodup := by
        rw [hids1]
        exact hnd
      have hact1 : activeMemories (runUpdatePage score_fn nowWall db
            (((activeMemories db.memories user_id).drop offset).take
              batch_size)).1.memories user_id
          = (activeMemories db.memories user_id).map (fun x =>
              if x ∈ ((activeMemories db.memories user_id).drop offset).take
                  batch_size
              then afterUpdate score_fn db.access_logs nowWall x else x) := by
        rw [hdb1]
        exact activeMemories_map _ db.memories user_id hgpres
      have hpre1 : ∀ m ∈ (activeMemories (runUpdatePage score_fn nowWall db
            (((activeMemories db.memories user_id).drop offset).take
              batch_size)).1.memories user_id).take (offset + batch_size),
          StableRow score_fn (runUpdatePage score_fn nowWall db
            (((activeMemories db.memories user_id).drop offset).take
              batch_size)).1.access_logs nowWall m := by
        intro m hm
        rw [hact1, ← List.map_take] at hm
        obtain ⟨y, hy, hym⟩ := List.mem_map.mp hm
        rw [hlogs1]
        by_cases hyp : y ∈ ((activeMemories db.memories user_id).drop offset).take
            batch_size
        · simp only [if_pos hyp] at hym
          rw [← hym]
          exact afterUpdate_stable score_fn db.access_logs nowWall y
        · simp only [if_neg hyp] at hym
          subst hym
          apply hpre
          rw [List.take_add] at hy
          rcases List.mem_append.mp hy with h | h
          · exact h
          · exact absurd h hyp
      have hlen1 : (activeMemories (runUpdatePage score_fn nowWall db
            (((activeMemories db.memories user_id).drop offset).take
              batch_size)).1.memories user_id).length
          = (activeMemories db.memories user_id).length := by
        rw [hact1, List.length_map]
      have hbs1 : 1 ≤ batch_size := Nat.one_le_iff_ne_zero.mpr hbs
      have hrec := ih (offset + batch_size) _ (by rw [hlen1]; omega) hnd1 hpre1
      have hstep : (update_decay_scores_from score_fn nowWall batch_size user_id
            offset db).1
          = (update_decay_scores_from score_fn nowWall batch_size user_id
              (offset + batch_size)
              (runUpdatePage score_fn nowWall db
                (((activeMemories db.memories user_id).drop offset).take
                  batch_size)).1).1 := by
        conv_lhs => rw [update_decay_scores_from]
        rw [dif_neg hpage]
      rw [hstep]
      exact ⟨hrec.1, hrec.2.1.trans hlogs1, hrec.2.2⟩

/-- C8: running `update_memory_decay_scores` twice in immediate succession
(same `now`, no new access-log entries) leaves, after the second run, the
exact same state — in particular the same `decay_score`, `access_count` and
`last_accessed_at` for every memory — as after the first: the update is an
idempotent pure recomputation from the access log, not an increment. -/
theorem C8_update_decay_scores_idempotent (db : SameTableDB ℝ)
    (batch_size : Nat) (half_life_days : Int) (user_id : Option String)
    (nowWall : Int) (hnd : (db.memories.map Mem.id).Nodup) :
    (update_memory_decay_scores
        (update_memory_decay_scores db batch_size half_life_days user_id nowWall).1
        batch_size half_life_days user_id nowWall).1
      = (update_memory_decay_scores db batch_size half_life_days user_id nowWall).1 := by
  unfold update_memory_decay_scores
  by_cases hbs : batch_size = 0
  · subst hbs
    have hz : ∀ s : SameTableDB ℝ,
        update_decay_scores_from
          (fun created_at last_accessed_at access_count importance_score =>
            calculate_decay_score created_at last_accessed_at access_count
              importance_score half_life_days nowWall)
          nowWall 0 user_id 0 s = (s, 0) := by
      intro s
      rw [update_decay_scores_from, dif_pos (by rw [List.take_zero]; rfl)]
    rw [hz db, hz]
  · obtain ⟨hnd1, _, hset1⟩ := update_decay_scores_from_settles
      (fun created_at last_accessed_at access_count importance_score =>
        calculate_decay_score created_at last_accessed_at access_count
          importance_score half_life_days nowWall)
      nowWall batch_size user_id hbs
      (activeMemories db.memories user_id).length 0 db (by omega) hnd
      (by simp)
    exact update_decay_scores_from_of_settled
      (fun created_at last_accessed_at access_count importance_score =>
        calculate_decay_score created_at last_accessed_at access_count
          importance_score half_life_days nowWall)
      nowWall batch_size user_id
      (activeMemories (update_decay_scores_from
        (fun created_at last_accessed_at access_count importance_score =>
          calculate_decay_score created_at last_accessed_at access_count
            importance_score half_life_days nowWall)
        nowWall batch_size user_id 0 db).1.memories user_id).length
      0
      (update_decay_scores_from
        (fun created_at last_accessed_at access_count importance_score =>
          calculate_decay_score created_at last_accessed_at access_count
            importance_score half_life_days nowWall)
        nowWall batch_size user_id 0 db).1
      (by omega) hnd1 hset1

/-- A sample real-scored memory row. -/
def sampleMemR : Mem ℝ :=
  { id := "m", user_id := "u", app_id := "app", content := "c", vector := "",
    metadata_ := "", state := MemoryState.active, created_at := ⟨0, some 0⟩,
    updated_at := ⟨0, some 0⟩, archived_at := none, deleted_at := none,
    decay_score := 1, last_accessed_at := none, access_count := 0,
    importance_score := 1, categories := [] }

/-- Witness for C8 on a one-memory database. -/
theorem C8_update_decay_scores_idempotent_witness :
    (((SameTableDB.mk [sampleMemR] [] []).memories.map Mem.id).Nodup) ∧
    (update_memory_decay_scores
        (update_memory_decay_scores (SameTableDB.mk [sampleMemR] [] [])
          100 30 none 86400).1
        100 30 none 86400).1
      = (update_memory_decay_scores (SameTableDB.mk [sampleMemR] [] [])
          100 30 none 86400).1 :=
  ⟨by decide,
    C8_update_decay_scores_idempotent (SameTableDB.mk [sampleMemR] [] [])
      100 30 none 86400 (by decide)⟩

/-! ## C9: scheduler configuration gate (`app/tasks/decay_scheduler.py`) -/

/-- The configuration `decay_scheduler.py` reads from the environment when
the module loads: `MEMORY_DECAY_ENABLED`, half-life, auto-archive threshold
and the daily update time. -/
structure SchedulerConfig (α : Type) where
  decay_enabled : Bool
  decay_half_life_days : Int
  decay_auto_archive_threshold : α
  decay_update_hour : Nat
  decay_update_minute : Nat

/-- `update_decay_job`: if decay is disabled, log and return without
touching the database; otherwise run the decay-score update (batch size
100, configured half-life — `score_fn` is `calculate_decay_score` wired at
that half-life and the current `now`), then auto-archive below the
configured threshold (batch size 100), then compute statistics (logged
only, no state change). -/
def update_decay_job {α : Type} [LinearOrderedField α] [FloorRing α]
    (score_fn : PyDatetime → Option PyDatetime → Int → α → Option α)
    (cfg : SchedulerConfig α) (nowWall : Int) (db : SameTableDB α) :
    SameTableDB α :=
  if cfg.decay_enabled = false then db
  else
    let db1 := (update_decay_scores_from score_fn nowWall 100 none 0 db).1
    let db2 := (auto_archive_decayed_memories db1
      cfg.decay_auto_archive_threshold 100 none nowWall).1
    let _stats := get_decay_statistics db2 none
    db2

/-- `trigger_decay_update_now`: when decay is globally disabled, log a
warning and return `False` without running anything; otherwise run
`update_decay_job` and return `True`.  (The `except` path returning
`False` is unreachable in the pure model, since `update_decay_job`
catches its own exceptions.) -/
def trigger_decay_update_now {α : Type} [LinearOrderedField α] [FloorRing α]
    (score_fn : PyDatetime → Option PyDatetime → Int → α → Option α)
    (cfg : SchedulerConfig α) (nowWall : Int) (db : SameTableDB α) :
    SameTableDB α × Bool :=
  if cfg.decay_enabled = false then (db, false)
  else (update_decay_job score_fn cfg nowWall db, true)

/-- C9: when decay is globally disabled by configuration, the manual
trigger refuses to run — it performs no state change — and reports the
refusal by returning `false`; with decay enabled the same call returns
`true`, so a caller can distinguish "ran with zero results" from "did not
run". -/
theorem C9_trigger_refuses_when_disabled {α : Type} [LinearOrderedField α]
    [FloorRing α]
    (score_fn : PyDatetime → Option PyDatetime → Int → α → Option α)
    (cfg : SchedulerConfig α) (nowWall : Int) (db : SameTableDB α)
    (hdis : cfg.decay_enabled = false) :
    trigger_decay_update_now score_fn cfg nowWall db = (db, false) ∧
    (∀ cfg2 : SchedulerConfig α, cfg2.decay_enabled = true →
      ∀ db2 : SameTableDB α,
        (trigger_decay_update_now score_fn cfg2 nowWall db2).2 = true) := by
  constructor
  · simp [trigger_decay_update_now, hdis]
  · intro cfg2 hen db2
    simp [trigger_decay_update_now, hen]

/-- Witness for C9 with a concrete disabled configuration. -/
theorem C9_trigger_refuses_when_disabled_witness :
    (SchedulerConfig.mk false 30 ((1 : ℚ)/10) 2 0).decay_enabled = false ∧
    trigger_decay_update_now (fun _ _ _ _ => none)
        (SchedulerConfig.mk false 30 ((1 : ℚ)/10) 2 0) 0
        (SameTableDB.mk [] [] [])
      = (SameTableDB.mk [] [] [], false) :=
  ⟨rfl,
    (C9_trigger_refuses_when_disabled (fun _ _ _ _ => none)
      (SchedulerConfig.mk false 30 ((1 : ℚ)/10) 2 0) 0
      (SameTableDB.mk [] [] []) rfl).1⟩

end OpenMemory
